import Mathlib

/-!
# Verification of the NGED substation-flow ingestion core

A shallow embedding of the repository's data model and operations:

* `contracts/data_schemas.py` — `SubstationFlows.validate` / `check_integrity`
* `data_nged/live_primary_data.py` — `read_primary_substation_csv`,
  `download_live_primary_data`
* `nged_data/process_flows.py` — `process_live_primary_substation_flows`
* `nged_data/substation_names/align.py` — `simplify_substation_name`,
  `join_location_table_to_live_primaries`
* `nged_data/ckan.py` — `remove_duplicate_names`
* `nged_substation_forecast/defs/nged_assets.py` — `_process_region_from_disk`,
  `nged_live_primary_data`

Dataframes (polars) are modelled as a header of column names plus a list of
rows of cells.  Power values are modelled as exact rationals (`Rat`): the
repository stores them as `Float32`, but every property claimed of them is
about presence and the range [-1000, 1000], which the rational model captures
exactly on the values concerned.  Timestamps are modelled as integers in an
order-isomorphic encoding of UTC instants (see `parseTimestamp`).
-/

namespace NGED

/-- A dataframe cell: a string, an exact numeric value, a parsed UTC
instant (polars `Datetime`), or a null. -/
inductive Cell where
  | str (s : String)
  | num (q : Rat)
  | dt (t : Int)
  | null
deriving DecidableEq, Repr

/-- The polars dtypes used by the `SubstationFlows` patito model. -/
inductive DType where
  | categorical
  | datetime
  | float32
deriving DecidableEq, Repr

/-- A polars dataframe: a header of column names and a list of rows.
Rows are lists of cells, read positionally against the header. -/
structure Frame where
  header : List String
  rows : List (List Cell)
deriving DecidableEq, Repr

/-- Index of a named column in the header, if present. -/
def Frame.colIdx (f : Frame) (name : String) : Option Nat :=
  f.header.indexOf? name

/-- Whether a column is present (`name in df.columns`). -/
def Frame.hasCol (f : Frame) (name : String) : Bool :=
  f.header.contains name

/-- The cells of a named column (`df[name]`); empty if the column is absent. -/
def Frame.getCol (f : Frame) (name : String) : List Cell :=
  match f.colIdx name with
  | some i => f.rows.map (fun r => r.getD i .null)
  | none => []

/-! ## `contracts/data_schemas.py` — the `SubstationFlows` patito model -/

namespace SubstationFlows

/-- `SubstationFlows.columns`: the canonical field set, in declaration order. -/
def columns : List String := ["substation_name", "timestamp", "MW", "MVA", "MVAr"]

/-- `SubstationFlows.dtypes`: the polars dtype attached to each field. -/
def dtypeOf : String → DType
  | "substation_name" => .categorical
  | "timestamp" => .datetime
  | _ => .float32

/-- Fields that are not `Optional` in the patito model, hence must be
non-null in every row. -/
def isRequired (c : String) : Bool :=
  c == "substation_name" || c == "timestamp"

/-- The three power fields, each carrying `ge=-1000, le=1000` bounds. -/
def isPower (c : String) : Bool :=
  c == "MW" || c == "MVA" || c == "MVAr"

/-- Fields declared `pt.Field(..., allow_missing=True)`: the three power
columns.  patito never reports such a field as a missing column, even under
`allow_missing_columns=False`; the repository's own tests validate frames
lacking `MVA` and `MVAr` with default flags. -/
def allowMissing (c : String) : Bool :=
  c == "MW" || c == "MVA" || c == "MVAr"

end SubstationFlows

/-- Whether a cell is acceptable for a column of the given dtype.  A null is
acceptable for any dtype (nullability is checked separately). -/
def Cell.matchesDType : Cell → DType → Bool
  | .null, _ => true
  | .str _, .categorical => true
  | .dt _, .datetime => true
  | .num _, .float32 => true
  | _, _ => false

/-- Whether a power cell is within the patito bounds `ge=-1000, le=1000`.
Nulls pass (the fields are `Optional`); non-numeric cells are the business of
the dtype check, not the bounds check. -/
def Cell.inPowerRange : Cell → Bool
  | .num q => decide (-1000 ≤ q) && decide (q ≤ 1000)
  | _ => true

/-- One violation found by patito's schema validation. -/
inductive Issue where
  | missingColumn (c : String)
  | superfluousColumn (c : String)
  | dtypeMismatch (c : String)
  | nullValue (c : String)
  | outOfRange (c : String)
deriving DecidableEq, Repr

/-- The issues patito's `Model.validate` reports for one schema column that is
present in the frame: a dtype mismatch, a null in a required field, or an
out-of-range power value. -/
def columnIssues (f : Frame) (c : String) : List Issue :=
  (if (f.getCol c).all (·.matchesDType (SubstationFlows.dtypeOf c)) then []
   else [Issue.dtypeMismatch c]) ++
  (if SubstationFlows.isRequired c && (f.getCol c).any (· == .null) then
     [Issue.nullValue c]
   else []) ++
  (if SubstationFlows.isPower c && !(f.getCol c).all (·.inPowerRange) then
     [Issue.outOfRange c]
   else [])

/-- All violations found by patito's `Model.validate` on a frame, under the
given column-tolerance flags.  A column can only be reported missing when its
field does not carry `allow_missing=True`. -/
def patitoIssues (f : Frame) (allowMissingColumns allowSuperfluousColumns
    dropSuperfluousColumns : Bool) : List Issue :=
  (if allowMissingColumns then []
   else (((SubstationFlows.columns.filter
       (fun c => !SubstationFlows.allowMissing c)).filter
     (fun c => !f.hasCol c)).map .missingColumn)) ++
  (if allowSuperfluousColumns || dropSuperfluousColumns then []
   else (f.header.filter (fun c => !SubstationFlows.columns.contains c)).map
     .superfluousColumn) ++
  (SubstationFlows.columns.filter f.hasCol).flatMap (columnIssues f)

/-- An error raised by `SubstationFlows.validate`: either the explicit
`ValueError` for a frame with neither `MW` nor `MVA`, or patito's aggregated
`DataFrameValidationError`. -/
inductive VError where
  | mwMvaMissing
  | invalid (issues : List Issue)
deriving DecidableEq, Repr

namespace SubstationFlows

/-- `SubstationFlows.validate`: raise unless at least one of `MW`/`MVA` is a
column, then run patito's schema validation (which drops superfluous columns
when asked to). -/
def validate (f : Frame) (allowMissingColumns : Bool := false)
    (allowSuperfluousColumns : Bool := false)
    (dropSuperfluousColumns : Bool := false) : Except VError Frame :=
  if !f.hasCol "MW" && !f.hasCol "MVA" then
    .error .mwMvaMissing
  else
    match patitoIssues f allowMissingColumns allowSuperfluousColumns
      dropSuperfluousColumns with
    | [] =>
      .ok (if dropSuperfluousColumns then
             { header := f.header.filter (columns.contains ·),
               rows := f.rows.map (fun r =>
                 (f.header.zip r).filterMap (fun p =>
                   if columns.contains p.1 then some p.2 else none)) }
           else f)
    | issues => .error (.invalid issues)

end SubstationFlows

/-- The maximum of the parsed timestamps in the `timestamp` column, ignoring
nulls (`df["timestamp"].max()`); `none` when the column is absent, empty, or
holds no datetime value. -/
def maxTimestamp (f : Frame) : Option Int :=
  (f.getCol "timestamp").foldl
    (fun acc c =>
      match c, acc with
      | .dt t, some m => some (max m t)
      | .dt t, none => some t
      | _, acc => acc)
    none

/-- One advisory problem reported by `check_integrity`. -/
inductive Problem where
  | validationFailed (e : VError)
  | stale (t : Int)
  | noTimestampData
  | missingTimestampColumn
deriving DecidableEq, Repr

namespace SubstationFlows

/-- `SubstationFlows.check_integrity`: collect (never raise) a validation
failure, then either a staleness warning (maximum timestamp older than
`now - max_age_hours`), a no-data warning, or a missing-column warning.
The wall clock `now` is passed explicitly; instants are in seconds, so
`timedelta(hours=h)` is `h * 3600`. -/
def check_integrity (f : Frame) (max_age_hours : Int := 24) (now : Int) :
    List Problem :=
  (match validate f with
   | .ok _ => []
   | .error e => [.validationFailed e]) ++
  (if f.hasCol "timestamp" then
     match maxTimestamp f with
     | some t => if t < now - max_age_hours * 3600 then [.stale t] else []
     | none => [.noTimestampData]
   else [.missingTimestampColumn])

end SubstationFlows

/-! ## Parsing of CSV scalar values

The repository delegates timestamp and numeric parsing to polars
(`str.to_datetime(time_zone="UTC")` and `cast`).  These external routines are
modelled here: timestamps as a strict ISO-8601 `YYYY-MM-DD HH:MM:SS` (or with
a `T` separator) parser into an order-isomorphic, injective integer encoding
of UTC instants; numerics as exact decimal parsing into `Rat`. -/

/-- The numeric value of a decimal digit character. -/
def digitVal? (c : Char) : Option Nat :=
  if c.isDigit then some (c.toNat - 48) else none

/-- Two decimal digits as a number. -/
def parse2 (a b : Char) : Option Nat := do
  pure ((← digitVal? a) * 10 + (← digitVal? b))

/-- Four decimal digits as a number. -/
def parse4 (a b c d : Char) : Option Nat := do
  pure (((← digitVal? a) * 10 + (← digitVal? b)) * 100 +
    ((← digitVal? c) * 10 + (← digitVal? d)))

/-- Modelled from polars: parse an ISO-8601 timestamp string to a UTC
instant.  The encoding `((((y*12+(m-1))*31+(d-1))*24+h)*60+mi)*60+s` is
injective and order-isomorphic to chronological order on the accepted
strings, which is all the repository's claims depend on. -/
def parseTimestamp (s : String) : Option Int :=
  match s.data with
  | [y1, y2, y3, y4, c1, m1, m2, c2, d1, d2, sep, h1, h2, c3, n1, n2, c4, s1, s2] =>
    if c1 == '-' && c2 == '-' && c3 == ':' && c4 == ':' &&
        (sep == ' ' || sep == 'T') then do
      let y ← parse4 y1 y2 y3 y4
      let mo ← parse2 m1 m2
      let d ← parse2 d1 d2
      let h ← parse2 h1 h2
      let mi ← parse2 n1 n2
      let se ← parse2 s1 s2
      if 1 ≤ mo && mo ≤ 12 && 1 ≤ d && d ≤ 31 && h < 24 && mi < 60 && se < 60 then
        some (Int.ofNat (((((y * 12 + (mo - 1)) * 31 + (d - 1)) * 24 + h) * 60
          + mi) * 60 + se))
      else none
    else none
  | _ => none

/-- A digit string as a number; `none` if empty or non-numeric. -/
def natOfDigits? : List Char → Option Nat
  | [] => none
  | cs => cs.foldlM (fun acc c => (digitVal? c).map (fun d => acc * 10 + d)) 0

/-- Modelled from polars: strict cast of a string to a float, i.e. parsing a
plain (optionally signed, optionally fractional) decimal literal.  Exponent
notation is not modelled; the repository's CSVs do not use it. -/
def parseRat (s : String) : Option Rat := do
  let cs := s.data
  let (neg, cs) := match cs with
    | '-' :: rest => (true, rest)
    | _ => (false, cs)
  let ip := cs.takeWhile (· != '.')
  let q ← match cs.dropWhile (· != '.') with
    | [] => (natOfDigits? ip).map (fun n => (n : Rat))
    | '.' :: fp => do
      let i ← natOfDigits? ip
      let fr ← natOfDigits? fp
      pure ((i : Rat) + (fr : Rat) / ((10 : Rat) ^ fp.length))
    | _ => none
  pure (if neg then -q else q)

/-! ## Frame operations used by the pipelines -/

/-- An error surfaced while normalizing one CSV: polars' duplicate-column and
column-not-found errors, unparseable values, the explicit mixed-units
`ValueError`, or a `SubstationFlows.validate` failure. -/
inductive PErr where
  | mixedUnits (units : List String)
  | duplicateColumn
  | columnNotFound (c : String)
  | timestampParse (s : String)
  | castFail (c : String)
  | invalidFrame (e : VError)
  | schemaMismatch
deriving DecidableEq, Repr

/-- Apply a rename table to one column name (`strict=False`: names not in the
table are kept). -/
def renameMap (tbl : List (String × String)) (h : String) : String :=
  match tbl.lookup h with
  | some n => n
  | none => h

/-- `df.rename(tbl, strict=False)`.  polars raises a `DuplicateError` when the
renamed header would contain a duplicate name. -/
def Frame.rename (f : Frame) (tbl : List (String × String)) : Except PErr Frame :=
  let hd := f.header.map (renameMap tbl)
  if hd.Nodup then .ok { f with header := hd } else .error .duplicateColumn

/-- `df.with_columns(name=pl.lit(c))`: overwrite the column if present,
otherwise append it. -/
def Frame.withColumnLit (f : Frame) (name : String) (c : Cell) : Frame :=
  match f.colIdx name with
  | some i => { f with rows := f.rows.map (fun r => r.set i c) }
  | none => { header := f.header ++ [name], rows := f.rows.map (fun r => r ++ [c]) }

/-- `df.select(cols)` for columns known to be present (absent names read as
null, which no caller relies on). -/
def Frame.select (f : Frame) (cols : List String) : Frame :=
  { header := cols,
    rows := f.rows.map (fun r => cols.map (fun c =>
      match f.colIdx c with
      | some i => r.getD i .null
      | none => .null)) }

/-- Drop one column, keeping the others in order. -/
def Frame.dropCol (f : Frame) (name : String) : Frame :=
  { header := f.header.filter (· != name),
    rows := f.rows.map (fun r =>
      (f.header.zip r).filterMap (fun p => if p.1 != name then some p.2 else none)) }

/-- Modelled from polars `str.to_datetime(time_zone="UTC")` on the
`timestamp` column: raises if the column is absent (`ColumnNotFoundError`),
if a value does not parse, or if the column is not a string column. -/
def toDatetimeUTC (f : Frame) : Except PErr Frame :=
  match f.colIdx "timestamp" with
  | none => .error (.columnNotFound "timestamp")
  | some i => do
    let rows ← f.rows.mapM (fun r => do
      let c ← match r.getD i Cell.null with
        | .str s =>
          match parseTimestamp s with
          | some t => pure (Cell.dt t)
          | none => Except.error (PErr.timestampParse s)
        | .null => pure Cell.null
        | _ => Except.error (PErr.castFail "timestamp")
      pure (r.set i c))
    pure { f with rows := rows }

/-- Strict cast of one cell to a dtype; `none` is a `ComputeError`. -/
def castCell : DType → Cell → Option Cell
  | _, .null => some .null
  | .float32, .num q => some (.num q)
  | .float32, .str s => (parseRat s).map .num
  | .float32, .dt _ => none
  | .datetime, .dt t => some (.dt t)
  | .datetime, .str s => (parseTimestamp s).map .dt
  | .datetime, .num _ => none
  | .categorical, .str s => some (.str s)
  | .categorical, _ => none

/-- Strict cast of one column to a dtype. -/
def Frame.castCol (f : Frame) (name : String) (d : DType) : Except PErr Frame :=
  match f.colIdx name with
  | none => .error (.columnNotFound name)
  | some i => do
    let rows ← f.rows.mapM (fun r =>
      match castCell d (r.getD i Cell.null) with
      | some c => pure (r.set i c)
      | none => Except.error (PErr.castFail name))
    pure { f with rows := rows }

/-- `df.cast(...)` over the listed columns, with the `SubstationFlows`
dtypes. -/
def Frame.castCols (f : Frame) (cols : List String) : Except PErr Frame :=
  cols.foldlM (fun g c => g.castCol c (SubstationFlows.dtypeOf c)) f

/-- The sort key of a timestamp cell: nulls sort first (polars default
`nulls_last=False`). -/
def tsSortKey : Cell → Option Int
  | .dt t => some t
  | _ => none

/-- `≤` on optional instants with `none` (null) first. -/
def optIntLe : Option Int → Option Int → Bool
  | none, _ => true
  | some _, none => false
  | some a, some b => a ≤ b

/-- Stable insertion into a sorted list: the new element goes before the
first existing element it compares `≤` to. -/
def insertLe {α : Type} (le : α → α → Bool) (a : α) : List α → List α
  | [] => [a]
  | b :: l => if le a b then a :: b :: l else b :: insertLe le a l

/-- Stable sort by a boolean comparison (models polars `sort`; the claims
depend only on sortedness and on the multiset of rows, which any sort
shares). -/
def sortByLe {α : Type} (le : α → α → Bool) : List α → List α
  | [] => []
  | a :: l => insertLe le a (sortByLe le l)

/-- The row comparison of `df.sort("timestamp")` given the timestamp column
index. -/
def rowTsLe (i : Nat) (r1 r2 : List Cell) : Bool :=
  optIntLe (tsSortKey (r1.getD i .null)) (tsSortKey (r2.getD i .null))

/-- `df.sort("timestamp")`: raises when the column is absent. -/
def Frame.sortTs (f : Frame) : Except PErr Frame :=
  match f.colIdx "timestamp" with
  | none => .error (.columnNotFound "timestamp")
  | some i => .ok { f with rows := sortByLe (rowTsLe i) f.rows }

/-! ## The two CSV normalizers -/

/-- `df["unit"] == u).all()`: nulls are ignored (polars `Series.all` default);
a non-string cell never equals a string. -/
def Frame.allUnitsEq (f : Frame) (u : String) : Bool :=
  (f.getCol "unit").all (fun c =>
    match c with
    | .null => true
    | .str s => s == u
    | _ => false)

/-- `df["unit"].unique().to_list()` restricted to its string values: the
distinct unit labels appearing in the file. -/
def Frame.distinctUnits (f : Frame) : List String :=
  ((f.getCol "unit").filterMap (fun c =>
    match c with
    | .str s => some s
    | _ => none)).dedup

/-- The long-format branch of `read_primary_substation_csv`: when both `unit`
and `value` columns are present, rename `value` to the constant unit (and
`time` to `timestamp`), or raise naming the distinct units found. -/
def unitBranchRead (f : Frame) : Except PErr Frame :=
  if f.hasCol "unit" && f.hasCol "value" then
    if f.allUnitsEq "MVA" then
      f.rename [("time", "timestamp"), ("value", "MVA")]
    else if f.allUnitsEq "MW" then
      f.rename [("time", "timestamp"), ("value", "MW")]
    else
      .error (.mixedUnits f.distinctUnits)
  else
    .ok f

/-- The long-format branch of `process_live_primary_substation_flows`: as in
`unitBranchRead`, but only `value` is renamed here (`time` is renamed by the
general table below). -/
def unitBranchProc (f : Frame) : Except PErr Frame :=
  if f.hasCol "unit" && f.hasCol "value" then
    if f.allUnitsEq "MVA" then
      f.rename [("value", "MVA")]
    else if f.allUnitsEq "MW" then
      f.rename [("value", "MW")]
    else
      .error (.mixedUnits f.distinctUnits)
  else
    .ok f

/-- The historical-header rename table of `read_primary_substation_csv`. -/
def renameTableRead : List (String × String) :=
  [("ValueDate", "timestamp"), ("MW Inst", "MW"), ("MVAr Inst", "MVAr"),
   ("Derived MVA", "MVA")]

/-- The historical-header rename table of
`process_live_primary_substation_flows` (also covers `time` and
`Timestamp`). -/
def renameTableProc : List (String × String) :=
  [("time", "timestamp"), ("ValueDate", "timestamp"), ("Timestamp", "timestamp"),
   ("MW Inst", "MW"), ("MVAr Inst", "MVAr"), ("Derived MVA", "MVA")]

/-- `data_nged/live_primary_data.py::read_primary_substation_csv`: attach the
caller-supplied substation label, pivot the long format, rename historical
headers, parse timestamps as UTC, project to the canonical columns present,
cast, and validate allowing missing columns.  The projection uses
`set(...).intersection(...)`, whose iteration order Python leaves
unspecified; the model fixes the schema declaration order. -/
def read_primary_substation_csv (csv : Frame) (substation_name : String) :
    Except PErr Frame := do
  let f := csv.withColumnLit "substation_name" (.str substation_name)
  let f ← unitBranchRead f
  let f ← f.rename renameTableRead
  let f ← toDatetimeUTC f
  let cols := SubstationFlows.columns.filter f.hasCol
  let f := f.select cols
  let f ← f.castCols cols
  (SubstationFlows.validate f true).mapError .invalidFrame

/-- `nged_data/process_flows.py::process_live_primary_substation_flows`:
pivot the long format, rename historical headers, project to the canonical
columns present, cast (which parses the timestamp strings), sort ascending by
timestamp, and validate allowing missing columns. -/
def process_live_primary_substation_flows (csv : Frame) : Except PErr Frame := do
  let f ← unitBranchProc csv
  let f ← f.rename renameTableProc
  let cols := SubstationFlows.columns.filter f.hasCol
  let f := f.select cols
  let f ← f.castCols cols
  let f ← f.sortTs
  (SubstationFlows.validate f true).mapError .invalidFrame

/-! ## `substation_names/align.py` — name simplification

polars string expressions over `List Char`.  `str.replace_all` with a literal
pattern replaces the leftmost occurrence and resumes scanning after the
replaced text; the two regex patterns (`\d{2,}(?i)kv` and `6\.6(?i)kv`) get
dedicated scanners with the same leftmost, non-overlapping discipline. -/

/-- `str.replace_all(pat, repl, literal=True)`: leftmost, non-overlapping.
Structured with fuel (any fuel at least the list length gives the fixpoint),
so that the kernel can evaluate it. -/
def replaceAllGo (pat repl : List Char) : Nat → List Char → List Char
  | 0, l => l
  | _ + 1, [] => []
  | fuel + 1, c :: rest =>
    if !pat.isEmpty && pat.isPrefixOf (c :: rest) then
      repl ++ replaceAllGo pat repl fuel ((c :: rest).drop pat.length)
    else
      c :: replaceAllGo pat repl fuel rest

/-- `str.replace_all(pat, repl, literal=True)` on a whole string. -/
def replaceAll (pat repl l : List Char) : List Char :=
  replaceAllGo pat repl l.length l

/-- Case-insensitive `k`. -/
def isKChar (c : Char) : Bool := c == 'k' || c == 'K'

/-- Case-insensitive `v`. -/
def isVChar (c : Char) : Bool := c == 'v' || c == 'V'

/-- Scanner for `str.replace_all(r"\d{2,}(?i)kv", "")`: remove every maximal
run of two or more digits that is immediately followed by `kv` (any case).
`pend` holds the (reversed) digit run currently being read; fuel-structured
for kernel evaluation. -/
def stripDigitsKvGo : Nat → List Char → List Char → List Char
  | 0, pend, l => pend.reverse ++ l
  | _ + 1, pend, [] => pend.reverse
  | fuel + 1, pend, c :: rest =>
    if c.isDigit then
      stripDigitsKvGo fuel (c :: pend) rest
    else if pend.length ≥ 2 && isKChar c then
      match rest with
      | v :: tail =>
        if isVChar v then stripDigitsKvGo fuel [] tail
        else pend.reverse ++ c :: stripDigitsKvGo fuel [] (v :: tail)
      | [] => pend.reverse ++ [c]
    else
      pend.reverse ++ c :: stripDigitsKvGo fuel [] rest

/-- `str.replace_all(r"\d{2,}(?i)kv", "")` on a whole string. -/
def stripDigitsKv (l : List Char) : List Char :=
  stripDigitsKvGo l.length [] l

/-- Scanner for `str.replace_all(r"6\.6(?i)kv", "")`, fuel-structured. -/
def strip66KvGo : Nat → List Char → List Char
  | 0, l => l
  | _ + 1, [] => []
  | fuel + 1, '6' :: '.' :: '6' :: k :: v :: rest =>
    if isKChar k && isVChar v then strip66KvGo fuel rest
    else '6' :: strip66KvGo fuel ('.' :: '6' :: k :: v :: rest)
  | fuel + 1, c :: rest => c :: strip66KvGo fuel rest

/-- `str.replace_all(r"6\.6(?i)kv", "")` on a whole string. -/
def strip66Kv (l : List Char) : List Char :=
  strip66KvGo l.length l

/-- Whitespace as stripped by polars `str.strip_chars()`. -/
def isSpaceChar (c : Char) : Bool :=
  c == ' ' || c == '\t' || c == '\n' || c == '\r'

/-- `str.strip_chars`: drop matching characters from both ends. -/
def stripEnds (p : Char → Bool) (l : List Char) : List Char :=
  ((l.dropWhile p).reverse.dropWhile p).reverse

/-- `align.py::simplify_substation_name`: the exact replacement chain applied
to one label (the source expresses it as a polars expression over a column;
cell-wise it is this string function). -/
def simplify_substation_name (s : String) : String :=
  let l := s.data
  let l := replaceAll " Primary Transformer Flows".data [] l
  let l := stripDigitsKv l
  let l := replaceAll "S/Stn".data [] l
  let l := replaceAll "/".data [] l
  let l := replaceAll "132".data [] l
  let l := replaceAll "66".data [] l
  let l := replaceAll "33".data [] l
  let l := replaceAll "11".data [] l
  let l := strip66Kv l
  let l := replaceAll "6 6kv".data [] l
  let l := replaceAll "Primary".data [] l
  let l := replaceAll "S Stn".data [] l
  let l := replaceAll " Kv".data [] l
  let l := replaceAll "  ".data " ".data l
  let l := stripEnds isSpaceChar l
  let l := stripEnds (· == '.') l
  String.mk l

/-! ## `ckan.py` — resource de-duplication and the catalog join -/

/-- The fields of `schemas.py::CkanResource` the verified operations read
(`name`) plus a payload field distinguishing resources (`url`). -/
structure CkanResource where
  name : String
  url : String
deriving DecidableEq, Repr

/-- The loop body of `ckan.py::remove_duplicate_names`: `names` is the set of
names already seen (insertion-ordered list; only membership is used). -/
def removeDuplicatesGo (names : List String) : List CkanResource → List CkanResource
  | [] => []
  | r :: rest =>
    if names.contains r.name then removeDuplicatesGo names rest
    else r :: removeDuplicatesGo (r.name :: names) rest

/-- `ckan.py::remove_duplicate_names`: keep the first resource bearing each
name, in input order. -/
def remove_duplicate_names (resources : List CkanResource) : List CkanResource :=
  removeDuplicatesGo [] resources

/-- A row of the validated `SubstationLocations` table (`substation_name`,
`latitude`, `longitude`; coordinates modelled as exact rationals). -/
structure LocationRow where
  substation_name : String
  latitude : Rat
  longitude : Rat
deriving DecidableEq, Repr

/-- One row of the output of `join_location_table_to_live_primaries`. -/
structure JoinedRow where
  substation_name_in_live_primaries : String
  url : String
  simple_name : String
  substation_name_in_location_table : String
  latitude : Rat
  longitude : Rat
deriving DecidableEq, Repr

/-- The override step of the join: replace a flow-side simplified name by its
manually curated correction when one exists
(`pl.coalesce("simplified_substation_name_in_location_table", "simple_name")`
after the left join against the mapping table). -/
def applyOverride (name_mapping : List (String × String)) (sn : String) : String :=
  match name_mapping.lookup sn with
  | some n => n
  | none => sn

/-- `align.py::join_location_table_to_live_primaries`.  The curated mapping
CSV (`map_substation_names_in_live_primary_flows_to_...csv`) is package data
not present under `src/`; it enters as the `name_mapping` parameter (keys
assumed unique, as for a curated table, so the left join is a lookup).  The
final step is polars' inner join on `simple_name` — one output row per
matching (live, location) pair — followed by `sort(by="simple_name")`. -/
def join_location_table_to_live_primaries (locations : List LocationRow)
    (live_primaries : List CkanResource)
    (name_mapping : List (String × String)) : List JoinedRow :=
  let liveS := live_primaries.map (fun r =>
    (r, applyOverride name_mapping (simplify_substation_name r.name)))
  let locS := locations.map (fun l => (l, simplify_substation_name l.substation_name))
  let joined := liveS.flatMap (fun rl =>
    (locS.filter (fun ll => ll.2 == rl.2)).map (fun ll =>
      { substation_name_in_live_primaries := rl.1.name
        url := rl.1.url
        simple_name := rl.2
        substation_name_in_location_table := ll.1.substation_name
        latitude := ll.1.latitude
        longitude := ll.1.longitude }))
  sortByLe (fun a b => (compare a.simple_name b.simple_name).isLE) joined

/-! ## `nged_assets.py` — per-region batch processing and consolidation -/

/-- The minimum of the parsed timestamps in the `timestamp` column, ignoring
nulls (`df["timestamp"].min()`). -/
def minTimestamp (f : Frame) : Option Int :=
  (f.getCol "timestamp").foldl
    (fun acc c =>
      match c, acc with
      | .dt t, some m => some (min m t)
      | .dt t, none => some t
      | _, acc => acc)
    none

/-- The per-file `AssetObservation` metadata yielded by
`_process_region_from_disk` (timestamps kept as instants rather than
stringified). -/
structure Obs where
  substation : String
  passed : Bool
  validation_errors : List PErr
  row_count : Nat
  first_timestamp : Option Int
  last_timestamp : Option Int
deriving DecidableEq, Repr

/-- The observation for a file that processed successfully. -/
def obsOk (name : String) (df : Frame) : Obs :=
  if df.rows.isEmpty then
    { substation := name, passed := true, validation_errors := [], row_count := 0,
      first_timestamp := none, last_timestamp := none }
  else
    { substation := name, passed := true, validation_errors := [],
      row_count := df.rows.length, first_timestamp := minTimestamp df,
      last_timestamp := maxTimestamp df }

/-- The observation for a file whose processing raised `e`. -/
def obsErr (name : String) (e : PErr) : Obs :=
  { substation := name, passed := false, validation_errors := [e], row_count := 0,
    first_timestamp := none, last_timestamp := none }

/-- The accumulated state of the `for csv_path in csv_files` loop. -/
structure RegionAcc where
  observations : List Obs
  dfs : List Frame
  all_errors : List (String × PErr)
  total : Nat
deriving DecidableEq, Repr

/-- The loop of `_process_region_from_disk`: one file at a time, catching the
processing error of each file at the loop body boundary. -/
def regionLoop : List (String × Frame) → RegionAcc
  | [] => { observations := [], dfs := [], all_errors := [], total := 0 }
  | (name, csv) :: rest =>
    let acc := regionLoop rest
    match read_primary_substation_csv csv name with
    | .ok df =>
      { observations := obsOk name df :: acc.observations,
        dfs := (if df.rows.isEmpty then [] else [df]) ++ acc.dfs,
        all_errors := acc.all_errors,
        total := acc.total + 1 }
    | .error e =>
      { observations := obsErr name e :: acc.observations,
        dfs := acc.dfs,
        all_errors := (name, e) :: acc.all_errors,
        total := acc.total + 1 }

/-- Union of headers in order of first appearance (`pl.concat(how="diagonal")`
column layout). -/
def unionHeaders (fs : List Frame) : List String :=
  fs.foldl (fun acc f => acc ++ f.header.filter (fun c => !acc.contains c)) []

/-- Reindex a row of `f` against a target header, filling absent columns with
nulls. -/
def reindexRow (f : Frame) (hdr : List String) (r : List Cell) : List Cell :=
  hdr.map (fun c =>
    match f.colIdx c with
    | some i => r.getD i .null
    | none => .null)

/-- `pl.concat(dfs, how="diagonal")`. -/
def concatDiagonal (fs : List Frame) : Frame :=
  let hdr := unionHeaders fs
  { header := hdr, rows := fs.flatMap (fun f => f.rows.map (reindexRow f hdr)) }

/-- The empty frame with the `SubstationFlows` schema
(`pl.DataFrame(schema=SubstationFlows.dtypes)`). -/
def emptyFlowsFrame : Frame :=
  { header := SubstationFlows.columns, rows := [] }

/-- The `AssetCheckResult` yielded after the loop. -/
structure RegionCheck where
  passed : Bool
  total_substations : Nat
  failed_count : Nat
  errors_by_substation : List (String × PErr)
deriving DecidableEq, Repr

/-- Everything `_process_region_from_disk` yields: the per-file observations,
the integrity check, and the region's concatenated output frame. -/
structure RegionOutput where
  observations : List Obs
  integrity : RegionCheck
  output : Frame
deriving DecidableEq, Repr

/-- `nged_assets.py::_process_region_from_disk`, over the region's files as
(substation name, raw CSV frame) pairs (the substation name is the file
stem). -/
def _process_region_from_disk (files : List (String × Frame)) : RegionOutput :=
  let acc := regionLoop files
  { observations := acc.observations,
    integrity :=
      { passed := acc.all_errors.isEmpty,
        total_substations := acc.total,
        failed_count := acc.all_errors.length,
        errors_by_substation := acc.all_errors },
    output := if acc.dfs.isEmpty then emptyFlowsFrame else concatDiagonal acc.dfs }

/-- `pl.concat(dfs)` (vertical): all schemas must agree. -/
def concatVertical : List Frame → Except PErr Frame
  | [] => .error .schemaMismatch
  | f :: fs =>
    if fs.all (fun g => g.header == f.header) then
      .ok { header := f.header, rows := f.rows ++ fs.flatMap (·.rows) }
    else .error .schemaMismatch

/-- Sort key for the `substation_name` column (nulls first; categorical
ordering caveat: the model uses lexicographic string order, which the claims
do not depend on — they only use that equal names stay grouped). -/
def nameSortKey : Cell → Option String
  | .str s => some s
  | _ => none

/-- Lexicographic comparison of character lists by code point. -/
def charListLe : List Char → List Char → Bool
  | [], _ => true
  | _ :: _, [] => false
  | a :: as, b :: bs =>
    if a.toNat < b.toNat then true
    else if b.toNat < a.toNat then false
    else charListLe as bs

/-- `≤` on optional strings with `none` (null) first. -/
def optStrLe : Option String → Option String → Bool
  | none, _ => true
  | some _, none => false
  | some a, some b => charListLe a.data b.data

/-- The row comparison of `df.sort(["substation_name", "timestamp"])` given
the two column indices. -/
def rowNameTsLe (i j : Nat) (r1 r2 : List Cell) : Bool :=
  if nameSortKey (r1.getD i .null) == nameSortKey (r2.getD i .null) then
    optIntLe (tsSortKey (r1.getD j .null)) (tsSortKey (r2.getD j .null))
  else
    optStrLe (nameSortKey (r1.getD i .null)) (nameSortKey (r2.getD i .null))

/-- `df.sort(["substation_name", "timestamp"])`. -/
def Frame.sortNameTs (f : Frame) : Except PErr Frame :=
  match f.colIdx "substation_name", f.colIdx "timestamp" with
  | some i, some j => .ok { f with rows := sortByLe (rowNameTsLe i j) f.rows }
  | none, _ => .error (.columnNotFound "substation_name")
  | _, none => .error (.columnNotFound "timestamp")

/-- The year-month of an instant in the `parseTimestamp` encoding
(`31 * 24 * 3600` instants per month slot), standing in for
`strftime("%Y-%m")`: two instants get the same month string iff they get the
same index. -/
def monthOfInstant (t : Int) : Int := t / 2678400

/-- The `month` partition cell of a row. -/
def monthCell : Cell → Cell
  | .dt t => .str (toString (monthOfInstant t))
  | _ => .null

/-- `df.with_columns(month=pl.col("timestamp").dt.strftime("%Y-%m"))`. -/
def Frame.withMonthColumn (f : Frame) : Except PErr Frame :=
  match f.colIdx "timestamp" with
  | none => .error (.columnNotFound "timestamp")
  | some i =>
    .ok { header := f.header ++ ["month"],
          rows := f.rows.map (fun r => r ++ [monthCell (r.getD i .null)]) }

/-- `nged_assets.py::nged_live_primary_data`: concatenate the four regional
frames, sort by substation then timestamp, attach the month partition column,
and persist the result wholesale (`write_parquet(partition_by="month")` —
the returned frame is what the store ends up holding). -/
def nged_live_primary_data (south_wales south_west west_midlands east_midlands :
    Frame) : Except PErr Frame := do
  let df ← concatVertical [south_wales, south_west, west_midlands, east_midlands]
  let df ← df.sortNameTs
  let df ← df.withMonthColumn
  pure df

/-! ## `live_primary_data.py::download_live_primary_data` -/

/-- A portal resource as `download_live_primary_data` sees it: its metadata
plus the outcome of fetching its bytes (the HTTP layer is an external
collaborator; a fetch failure carries its message). -/
structure PortalResource where
  name : String
  format : String
  url : String
  content : Except String Frame
deriving Repr

/-- An error reported for one substation by `download_live_primary_data`:
either the HTTP failure or the processing failure for that resource. -/
inductive DlErr where
  | http (msg : String)
  | processing (e : PErr)
deriving DecidableEq, Repr

/-- `live_primary_data.py::SubstationDownloadResult`. -/
structure SubstationDownloadResult where
  substation_name : String
  df : Option Frame
  errors : List DlErr
deriving Repr

/-- `live_primary_data.py::download_live_primary_data`: for each CSV resource
with a usable URL, either the validated frame or that resource's own error,
labelled with the substation name derived from the resource name; other
resources are skipped and never abort the batch. -/
def download_live_primary_data (resources : List PortalResource) :
    List SubstationDownloadResult :=
  resources.filterMap (fun r =>
    if r.format.toLower == "csv" && r.url != "" && !r.url.startsWith "redacted" then
      let substation_name := r.name.replace " Primary Transformer Flows" ""
      some (match r.content with
        | .error m =>
          { substation_name := substation_name, df := none, errors := [.http m] }
        | .ok csv =>
          match read_primary_substation_csv csv substation_name with
          | .ok df =>
            { substation_name := substation_name, df := some df, errors := [] }
          | .error e =>
            { substation_name := substation_name, df := none,
              errors := [.processing e] })
    else none)

/-- The substation labels the repository itself exercises and documents
(source comments in `align.py`, `process_flows.py`, the tests, and the
spec's examples). -/
def testedLabels : List String :=
  ["Albrighton 11Kv Primary Transformer Flows",
   "Aberaeron 11kV Transformer Flows",
   "Sheepbridge 11/6 6kv S/Stn",
   "Sheffield Road 33 11 6 6kv S Stn",
   "Sandy Lane 33 6 6kv S Stn",
   "Infinity Park 33 11 Kv S Stn",
   "Park Lane",
   "Park Lane Primary",
   "Albrighton",
   "Regent Street",
   "Milford Haven Grid",
   "Filton Dc Primary Transformer Flows",
   "Abington Primary Transformer Flows"]

/-- Semantic reading of patito's per-column checks for one schema column:
cells carry the declared dtype, required fields are never null, and power
values respect the `[-1000, 1000]` bounds. -/
def ColumnOk (f : Frame) (c : String) : Prop :=
  (∀ cell ∈ f.getCol c, cell.matchesDType (SubstationFlows.dtypeOf c) = true) ∧
  (SubstationFlows.isRequired c = true → ∀ cell ∈ f.getCol c, cell ≠ .null) ∧
  (SubstationFlows.isPower c = true → ∀ cell ∈ f.getCol c, cell.inPowerRange = true)

/-- Semantic reading of patito's whole-frame schema validation under the
column-tolerance flags: only fields without `allow_missing=True` must be
present. -/
def SchemaAccepted (f : Frame)
    (allowMissingColumns allowSuperfluousColumns dropSuperfluousColumns : Bool) :
    Prop :=
  (allowMissingColumns = true ∨
    ∀ c ∈ SubstationFlows.columns.filter
      (fun c => !SubstationFlows.allowMissing c), f.hasCol c = true) ∧
  (allowSuperfluousColumns = true ∨ dropSuperfluousColumns = true ∨
    ∀ c ∈ f.header, c ∈ SubstationFlows.columns) ∧
  (∀ c ∈ SubstationFlows.columns, f.hasCol c = true → ColumnOk f c)

/-- Rectangularity: every row has exactly one cell per header column (true
of every polars dataframe by construction). -/
def Frame.Rect (f : Frame) : Prop :=
  ∀ r ∈ f.rows, r.length = f.header.length

/-- The (substation name, timestamp) projection of a frame, row by row. -/
def nameTsPairs (f : Frame) : List (Cell × Cell) :=
  (f.getCol "substation_name").zip (f.getCol "timestamp")

/-- The observation `_process_region_from_disk` yields for one file,
computed from that file alone. -/
def fileObs (nameCsv : String × Frame) : Obs :=
  match read_primary_substation_csv nameCsv.2 nameCsv.1 with
  | .ok df => obsOk nameCsv.1 df
  | .error e => obsErr nameCsv.1 e

/-- The error entry `_process_region_from_disk` records for one file,
computed from that file alone. -/
def fileErr (nameCsv : String × Frame) : Option (String × PErr) :=
  match read_primary_substation_csv nameCsv.2 nameCsv.1 with
  | .ok _ => none
  | .error e => some (nameCsv.1, e)

/-- The wide-layout example file of `live_primary_data.py`'s header comment
(South Wales variant), with out-of-order timestamps. -/
def wideExampleCsv : Frame :=
  { header := ["ValueDate", "MW Inst", "MVAr Inst", "Volts Inst"],
    rows := [[.str "2024-01-02 00:00:00", .num 5, .num 1, .num 11],
             [.str "2024-01-01 00:00:00", .num 6, .num 2, .num 11]] }

/-- What `read_primary_substation_csv` returns for `wideExampleCsv`. -/
def wideExampleOut : Frame :=
  { header := ["substation_name", "timestamp", "MW", "MVAr"],
    rows := [[.str "Aberaeron", .dt 65053065600, .num 5, .num 1],
             [.str "Aberaeron", .dt 65052979200, .num 6, .num 2]] }

/-- The row-level action of `Frame.castCol` on one column, given the
(unchanging) header. -/
def castRowOne (hdr : List String) (c : String) (r : List Cell) :
    Except PErr (List Cell) :=
  match hdr.indexOf? c with
  | none => .error (.columnNotFound c)
  | some i =>
    match castCell (SubstationFlows.dtypeOf c) (r.getD i .null) with
    | some cell => .ok (r.set i cell)
    | none => .error (.castFail c)

/-- The row-level action of `Frame.castCols`. -/
def castRowCols (hdr : List String) (cols : List String) (r : List Cell) :
    Except PErr (List Cell) :=
  cols.foldlM (fun r c => castRowOne hdr c r) r

/-- What `process_live_primary_substation_flows` returns for `wideExampleCsv`:
the same records, sorted ascending by timestamp and without the label
column. -/
def wideExampleProcOut : Frame :=
  { header := ["timestamp", "MW", "MVAr"],
    rows := [[.dt 65052979200, .num 6, .num 2],
             [.dt 65053065600, .num 5, .num 1]] }

/-! # Theorems -/

/-! ## C1 — `validate` fails iff MW/MVA missing *or* a schema check fails -/

theorem ite_nil_singleton {b : Prop} [Decidable b] {x : Issue} :
    (if b then ([] : List Issue) else [x]) = [] ↔ b := by
  split <;> simp_all

theorem ite_singleton_nil {b : Prop} [Decidable b] {x : Issue} :
    (if b then [x] else ([] : List Issue)) = [] ↔ ¬ b := by
  split <;> simp_all

theorem columnIssues_nil_iff (f : Frame) (c : String) :
    columnIssues f c = [] ↔ ColumnOk f c := by
  simp only [columnIssues]
  rw [List.append_eq_nil, List.append_eq_nil,
    ite_nil_singleton, ite_singleton_nil, ite_singleton_nil]
  simp only [ColumnOk, List.all_eq_true, Bool.and_eq_true, not_and, List.any_eq_true,
    not_exists, Bool.not_eq_true', Bool.not_eq_false, beq_iff_eq]
  tauto

theorem patitoIssues_nil_iff (f : Frame) (am as ds : Bool) :
    patitoIssues f am as ds = [] ↔ SchemaAccepted f am as ds := by
  cases am <;> cases as <;> cases ds <;>
    (simp only [patitoIssues, SchemaAccepted, Bool.false_eq_true, Bool.true_eq_false,
      Bool.or_self, Bool.or_false, Bool.or_true, Bool.false_or, Bool.true_or,
      if_true, if_false, ite_true, ite_false,
      List.append_eq_nil, List.nil_append, List.append_nil,
      List.map_eq_nil_iff, List.filter_eq_nil_iff,
      List.flatMap_eq_nil_iff, List.mem_filter, Bool.not_eq_true', List.elem_iff,
      Bool.not_eq_false, columnIssues_nil_iff]
     tauto)

/-- C1 counterexample: a frame that *does* contain an `MW` column can still
make `validate` fail — here through the `le=1000` bound on `MW` — so
"contains MW or MVA" does not imply success. -/
theorem validate_fails_despite_MW_present :
    (SubstationFlows.validate
      { header := ["substation_name", "timestamp", "MW", "MVA", "MVAr"],
        rows := [[.str "Filton Dc", .dt 0, .num 5000, .null, .null]] }).isOk
        = false ∧
    Frame.hasCol
      { header := ["substation_name", "timestamp", "MW", "MVA", "MVAr"],
        rows := [[.str "Filton Dc", .dt 0, .num 5000, .null, .null]] } "MW"
        = true := by
  decide

/-- C1 amended: `validate` fails whenever neither `MW` nor `MVA` is present;
when at least one is present it succeeds if and only if patito's remaining
schema checks (required columns under the tolerance flags, dtypes, nulls in
required fields, power bounds) all pass. -/
theorem validate_isOk_iff (f : Frame) (am as ds : Bool) :
    (SubstationFlows.validate f am as ds).isOk = true ↔
      ((f.hasCol "MW" = true ∨ f.hasCol "MVA" = true) ∧
        SchemaAccepted f am as ds) := by
  unfold SubstationFlows.validate
  split
  · rename_i hc
    rw [Bool.and_eq_true, Bool.not_eq_true', Bool.not_eq_true'] at hc
    simp [Except.isOk, Except.toBool, hc.1, hc.2]
  · rename_i hc
    have hor : f.hasCol "MW" = true ∨ f.hasCol "MVA" = true := by
      by_contra hno
      push_neg at hno
      exact hc (by simp [hno.1, hno.2])
    split
    · rename_i hnil
      have hacc := (patitoIssues_nil_iff f am as ds).mp hnil
      simp [Except.isOk, Except.toBool, hor, hacc]
    · rename_i issues hcons
      have hacc : ¬ SchemaAccepted f am as ds := fun h =>
        hcons ((patitoIssues_nil_iff f am as ds).mpr h)
      simp [Except.isOk, Except.toBool, hacc]

/-! ## Shared lemmas about `insertLe`/`sortByLe` -/

theorem length_insertLe {α : Type} (le : α → α → Bool) (a : α) :
    ∀ l : List α, (insertLe le a l).length = l.length + 1 := by
  intro l
  induction l with
  | nil => simp [insertLe]
  | cons b l ih =>
    simp only [insertLe]
    split <;> simp [ih]

theorem length_sortByLe {α : Type} (le : α → α → Bool) :
    ∀ l : List α, (sortByLe le l).length = l.length := by
  intro l
  induction l with
  | nil => rfl
  | cons a l ih => simp [sortByLe, length_insertLe, ih]

theorem perm_insertLe {α : Type} (le : α → α → Bool) (a : α) :
    ∀ l : List α, (insertLe le a l).Perm (a :: l) := by
  intro l
  induction l with
  | nil => simp [insertLe]
  | cons b l ih =>
    simp only [insertLe]
    split
    · exact List.Perm.refl _
    · exact (ih.cons b).trans (List.Perm.swap a b l)

theorem perm_sortByLe {α : Type} (le : α → α → Bool) :
    ∀ l : List α, (sortByLe le l).Perm l := by
  intro l
  induction l with
  | nil => exact List.Perm.refl _
  | cons a l ih => exact (perm_insertLe le a (sortByLe le l)).trans (ih.cons a)

theorem mem_insertLe {α : Type} (le : α → α → Bool) (a x : α) (l : List α)
    (hx : x ∈ insertLe le a l) : x = a ∨ x ∈ l := by
  have := (perm_insertLe le a l).mem_iff.mp hx
  simpa using this

theorem sorted_insertLe {α : Type} (le : α → α → Bool)
    (htot : ∀ a b, le a b = true ∨ le b a = true)
    (htrans : ∀ a b c, le a b = true → le b c = true → le a c = true)
    (a : α) (l : List α) (hl : l.Pairwise (fun x y => le x y = true)) :
    (insertLe le a l).Pairwise (fun x y => le x y = true) := by
  induction l with
  | nil => simp [insertLe]
  | cons b l ih =>
    rcases List.pairwise_cons.mp hl with ⟨hb, hl'⟩
    simp only [insertLe]
    split
    · rename_i hab
      refine List.pairwise_cons.mpr ⟨?_, hl⟩
      intro y hy
      rcases List.mem_cons.mp hy with h | h
      · exact h ▸ hab
      · exact htrans a b y hab (hb y h)
    · rename_i hab
      have hba : le b a = true := by
        rcases htot a b with h | h
        · exact absurd h hab
        · exact h
      refine List.pairwise_cons.mpr ⟨?_, ih hl'⟩
      intro y hy
      rcases mem_insertLe le a y l hy with h | h
      · exact h ▸ hba
      · exact hb y h

theorem sorted_sortByLe {α : Type} (le : α → α → Bool)
    (htot : ∀ a b, le a b = true ∨ le b a = true)
    (htrans : ∀ a b c, le a b = true → le b c = true → le a c = true) :
    ∀ l : List α, (sortByLe le l).Pairwise (fun x y => le x y = true) := by
  intro l
  induction l with
  | nil => simp [sortByLe]
  | cons a l ih => exact sorted_insertLe le htot htrans a (sortByLe le l) ih

/-! ## Bridge lemmas between `hasCol`, `colIdx` and `maxTimestamp` -/

theorem hasCol_eq_false_iff (f : Frame) (c : String) :
    f.hasCol c = false ↔ f.colIdx c = none := by
  unfold Frame.hasCol Frame.colIdx
  rw [List.indexOf?_eq_none_iff]
  simp
  constructor
  · intro h x hx he
    exact h (he ▸ hx)
  · intro h hx
    exact h c hx rfl

theorem maxTimestamp_none_of_hasCol_false (f : Frame)
    (hc : f.hasCol "timestamp" = false) : maxTimestamp f = none := by
  unfold maxTimestamp Frame.getCol
  rw [(hasCol_eq_false_iff f "timestamp").mp hc]
  rfl

/-! ## C10 — `remove_duplicate_names` is first-occurrence-preserving -/

theorem removeDuplicatesGo_sublist (names : List String) :
    ∀ l : List CkanResource, (removeDuplicatesGo names l).Sublist l := by
  intro l
  induction l generalizing names with
  | nil => simp [removeDuplicatesGo]
  | cons r rest ih =>
    simp only [removeDuplicatesGo]
    split
    · exact (ih names).cons r
    · exact (ih (r.name :: names)).cons₂ r

theorem removeDuplicatesGo_name_not_seen (names : List String)
    (l : List CkanResource) (r : CkanResource)
    (hr : r ∈ removeDuplicatesGo names l) : ¬ names.contains r.name := by
  induction l generalizing names with
  | nil => simp [removeDuplicatesGo] at hr
  | cons x rest ih =>
    simp only [removeDuplicatesGo] at hr
    split at hr
    · exact ih names hr
    · rename_i hx
      rcases List.mem_cons.mp hr with h | h
      · subst h; exact fun hc => hx hc
      · intro hc
        have := ih (x.name :: names) h
        exact this (by simp only [List.contains_cons, hc, Bool.or_true])

theorem removeDuplicatesGo_first_occurrence (names : List String)
    (l : List CkanResource) (r : CkanResource)
    (hr : r ∈ removeDuplicatesGo names l) :
    l.find? (fun x => x.name == r.name) = some r := by
  induction l generalizing names with
  | nil => simp [removeDuplicatesGo] at hr
  | cons x rest ih =>
    simp only [removeDuplicatesGo] at hr
    split at hr
    · rename_i hx
      have hne : r.name ≠ x.name := by
        intro he
        exact removeDuplicatesGo_name_not_seen names rest r hr (he ▸ hx)
      rw [List.find?_cons_of_neg, ih names hr]
      simp [beq_iff_eq]
      exact fun he => hne he.symm
    · rename_i hx
      rcases List.mem_cons.mp hr with h | h
      · subst h
        rw [List.find?_cons_of_pos] <;> simp
      · have hnot := removeDuplicatesGo_name_not_seen (x.name :: names) rest r h
        have hne : r.name ≠ x.name := by
          intro he
          exact hnot (by simp [he])
        rw [List.find?_cons_of_neg, ih (x.name :: names) h]
        simp [beq_iff_eq]
        exact fun he => hne he.symm

theorem removeDuplicatesGo_names_nodup (names : List String)
    (l : List CkanResource) :
    ((removeDuplicatesGo names l).map (·.name)).Nodup := by
  induction l generalizing names with
  | nil => simp [removeDuplicatesGo]
  | cons x rest ih =>
    simp only [removeDuplicatesGo]
    split
    · exact ih names
    · simp only [List.map_cons, List.nodup_cons]
      refine ⟨?_, ih (x.name :: names)⟩
      intro hmem
      rcases List.mem_map.mp hmem with ⟨r, hr, hname⟩
      have := removeDuplicatesGo_name_not_seen (x.name :: names) rest r hr
      exact this (by simp [hname])

/-- C10: `remove_duplicate_names` keeps a subsequence of its input in which
no two resources share a name, and every retained resource is the first
input element bearing its name. -/
theorem remove_duplicate_names_first_occurrence_preserving
    (resources : List CkanResource) :
    (remove_duplicate_names resources).Sublist resources ∧
    ((remove_duplicate_names resources).map (·.name)).Nodup ∧
    ∀ r ∈ remove_duplicate_names resources,
      resources.find? (fun x => x.name == r.name) = some r :=
  ⟨removeDuplicatesGo_sublist [] resources,
   removeDuplicatesGo_names_nodup [] resources,
   fun r hr => removeDuplicatesGo_first_occurrence [] resources r hr⟩

/-- C10 witness: the theorem applied to a concrete resource list with a
duplicated name. -/
theorem remove_duplicate_names_first_occurrence_preserving_witness :
    ([⟨"Aberaeron", "u1"⟩, ⟨"Aberaeron", "u2"⟩, ⟨"Abington", "u3"⟩] :
        List CkanResource).find?
      (fun x => x.name == (⟨"Aberaeron", "u1"⟩ : CkanResource).name) =
      some ⟨"Aberaeron", "u1"⟩ :=
  (remove_duplicate_names_first_occurrence_preserving
    [⟨"Aberaeron", "u1"⟩, ⟨"Aberaeron", "u2"⟩, ⟨"Abington", "u3"⟩]).2.2
    ⟨"Aberaeron", "u1"⟩ (by decide)

/-! ## C6 — simplification is *not* idempotent on all strings -/

/-- C6 counterexample: the `"  " → " "` replacement only halves runs of
spaces, so a three-space run needs two passes; `simplify` applied twice to
`"a   a"` differs from one application. -/
theorem simplify_substation_name_not_idempotent :
    simplify_substation_name (simplify_substation_name "a   a") ≠
      simplify_substation_name "a   a" := by
  decide

/-- C6 amended: `simplify` is idempotent on every substation label the
repository exercises (all documented example labels), though not on
arbitrary strings. -/
theorem simplify_substation_name_idempotent_on_tested_labels :
    testedLabels.all (fun x =>
      simplify_substation_name (simplify_substation_name x) ==
        simplify_substation_name x) = true := by
  decide

/-! ## C3 — ambiguous simplified names do not raise: the join fans out -/

/-- C3 counterexample: with two catalog entries both simplifying to
`"Park Lane"` (distinct entities) and a flow label simplifying to
`"Park Lane"` with no override, resolution does not raise any
`ResolutionAmbiguity` (no such error exists in the code): the inner join
returns normally with one linked row per matching catalog entry. -/
theorem join_ambiguous_does_not_raise :
    join_location_table_to_live_primaries
      [⟨"Park Lane", 52, -2⟩, ⟨"Park Lane", 53, -1⟩]
      [⟨"Park Lane Primary", "u"⟩] [] =
    [{ substation_name_in_live_primaries := "Park Lane Primary", url := "u",
       simple_name := "Park Lane", substation_name_in_location_table := "Park Lane",
       latitude := 52, longitude := -2 },
     { substation_name_in_live_primaries := "Park Lane Primary", url := "u",
       simple_name := "Park Lane", substation_name_in_location_table := "Park Lane",
       latitude := 53, longitude := -1 }] := by
  decide

/-- C3 amended: resolution never raises and never picks one match
arbitrarily — the join emits exactly one output row per (flow label,
matching catalog entry) pair, so an ambiguous label is visible as several
rows rather than a single arbitrary link. -/
theorem join_row_count_is_sum_of_matches (locations : List LocationRow)
    (live_primaries : List CkanResource)
    (name_mapping : List (String × String)) :
    (join_location_table_to_live_primaries locations live_primaries
        name_mapping).length =
      (live_primaries.map (fun r => (locations.filter (fun l =>
        simplify_substation_name l.substation_name ==
          applyOverride name_mapping (simplify_substation_name r.name))).length)).sum := by
  unfold join_location_table_to_live_primaries
  rw [length_sortByLe, List.length_flatMap, List.map_map]
  refine congrArg List.sum (List.map_congr_left ?_)
  intro r _
  simp only [Function.comp_apply, List.filter_map, List.length_map]
  rfl

/-! ## C7 — `check_integrity` is a total advisory check -/

theorem stale_mem_check_integrity (f : Frame) (h now t : Int) :
    Problem.stale t ∈ SubstationFlows.check_integrity f h now ↔
      (maxTimestamp f = some t ∧ t < now - h * 3600) := by
  unfold SubstationFlows.check_integrity
  rw [List.mem_append]
  have hfirst : Problem.stale t ∉ (match SubstationFlows.validate f with
      | .ok _ => ([] : List Problem)
      | .error e => [Problem.validationFailed e]) := by
    rcases SubstationFlows.validate f with g | e <;> simp
  rcases hcolb : f.hasCol "timestamp" with _ | _
  · have hmax := maxTimestamp_none_of_hasCol_false f hcolb
    simp [hcolb, hfirst, hmax]
  · rcases hmax : maxTimestamp f with _ | mt
    · simp [hcolb, hfirst, hmax]
    · by_cases hst : mt < now - h * 3600
      · simp only [hcolb, hmax, if_true, if_pos hst, List.mem_singleton]
        constructor
        · rintro (h1 | h1)
          · exact absurd h1 hfirst
          · injection h1 with h1
            subst h1
            exact ⟨rfl, hst⟩
        · rintro ⟨h1, h2⟩
          injection h1 with h1
          subst h1
          right
          rfl
      · simp only [hcolb, hmax, if_true, if_neg hst, List.not_mem_nil]
        constructor
        · rintro (h1 | h1)
          · exact absurd h1 hfirst
          · exact h1.elim
        · rintro ⟨h1, h2⟩
          injection h1 with h1
          subst h1
          exact absurd h2 hst

theorem validationFailed_mem_check_integrity (f : Frame) (h now : Int)
    (e : VError) :
    Problem.validationFailed e ∈ SubstationFlows.check_integrity f h now ↔
      SubstationFlows.validate f = .error e := by
  unfold SubstationFlows.check_integrity
  rw [List.mem_append]
  have hsecond : Problem.validationFailed e ∉ (if f.hasCol "timestamp" = true then
      (match maxTimestamp f with
       | some t => if t < now - h * 3600 then [Problem.stale t] else []
       | none => [Problem.noTimestampData])
     else [Problem.missingTimestampColumn]) := by
    split
    · rcases maxTimestamp f with _ | mt
      · simp
      · split <;> simp
    · simp
  rcases hv : SubstationFlows.validate f with gerr | gok
  · simp only [hv, List.mem_singleton]
    constructor
    · rintro (h1 | h1)
      · injection h1 with h1
        subst h1
        rfl
      · exact absurd h1 hsecond
    · intro h1
      injection h1 with h1
      subst h1
      left
      rfl
  · simp only [hv, List.not_mem_nil]
    constructor
    · rintro (h1 | h1)
      · exact h1.elim
      · exact absurd h1 hsecond
    · intro h1
      exact absurd h1 (by simp)

/-- C7: `check_integrity` is total — it returns its advisory list for every
frame, catching the validation failure rather than raising — and its output
contains the validation message exactly when `validate` fails, and the
staleness message exactly when the maximum timestamp is older than
`now - max_age_hours` (default 24). -/
theorem check_integrity_advisory_characterization (f : Frame) (h now t : Int)
    (e : VError) :
    (Problem.validationFailed e ∈ SubstationFlows.check_integrity f h now ↔
      SubstationFlows.validate f = .error e) ∧
    (Problem.stale t ∈ SubstationFlows.check_integrity f h now ↔
      (maxTimestamp f = some t ∧ t < now - h * 3600)) :=
  ⟨validationFailed_mem_check_integrity f h now e,
   stale_mem_check_integrity f h now t⟩

/-! ## C8 — per-file errors are isolated and reported with name and reason -/

theorem regionLoop_spec (files : List (String × Frame)) :
    (regionLoop files).observations = files.map fileObs ∧
    (regionLoop files).total = files.length ∧
    (regionLoop files).all_errors = files.filterMap fileErr := by
  induction files with
  | nil => exact ⟨rfl, rfl, rfl⟩
  | cons nc rest ih =>
    obtain ⟨h1, h2, h3⟩ := ih
    rcases nc with ⟨name, csv⟩
    simp only [regionLoop, List.map_cons, List.filterMap_cons, List.length_cons]
    rcases hres : read_primary_substation_csv csv name with e | df <;>
      simp [fileObs, fileErr, hres, h1, h2, h3]

/-- C8: batch processing touches every file exactly once, each file's
observation and error report are functions of that file alone (so one file's
failure cannot affect another's processing), and every failure is recorded
in `errors_by_substation` under that file's substation name together with
the specific error; the same isolation holds for
`download_live_primary_data`, whose per-resource results carry the resource's
substation name and its own HTTP or processing error. -/
theorem region_batch_isolates_failures (files : List (String × Frame))
    (resources : List PortalResource) :
    (_process_region_from_disk files).observations = files.map fileObs ∧
    (_process_region_from_disk files).integrity.total_substations =
      files.length ∧
    (_process_region_from_disk files).integrity.errors_by_substation =
      files.filterMap fileErr ∧
    (∀ name csv e, (name, csv) ∈ files →
      read_primary_substation_csv csv name = .error e →
      (name, e) ∈ (_process_region_from_disk files).integrity.errors_by_substation) ∧
    (∀ r ∈ resources,
      (r.format.toLower == "csv" && r.url != "" &&
        !(r.url.startsWith "redacted")) = true →
      ∀ csv e, r.content = .ok csv →
        read_primary_substation_csv csv
          (r.name.replace " Primary Transformer Flows" "") = .error e →
        ({ substation_name := r.name.replace " Primary Transformer Flows" "",
           df := none, errors := [.processing e] } : SubstationDownloadResult) ∈
          download_live_primary_data resources) := by
  obtain ⟨h1, h2, h3⟩ := regionLoop_spec files
  refine ⟨h1, h2, h3, ?_, ?_⟩
  · intro name csv e hmem hres
    have : fileErr (name, csv) = some (name, e) := by
      simp [fileErr, hres]
    show (name, e) ∈ (regionLoop files).all_errors
    rw [h3]
    exact List.mem_filterMap.mpr ⟨(name, csv), hmem, this⟩
  · intro r hr hcond csv e hcontent hres
    unfold download_live_primary_data
    refine List.mem_filterMap.mpr ⟨r, hr, ?_⟩
    rw [if_pos hcond, hcontent]
    simp [hres]

/-- C8 witness: the theorem applied to a concrete two-file batch whose first
file has no recognizable time column: its failure is reported under its own
name with the specific error while the second file's frame still validates. -/
theorem region_batch_isolates_failures_witness :
    ("Aberaeron", PErr.columnNotFound "timestamp") ∈
      (_process_region_from_disk
        [("Aberaeron", { header := ["foo"], rows := [] }),
         ("Abington",
          { header := ["ValueDate", "MVA"],
            rows := [[.str "2024-01-01 00:00:00", .num 5]] })]).integrity.errors_by_substation :=
  (region_batch_isolates_failures
    [("Aberaeron", { header := ["foo"], rows := [] }),
     ("Abington",
      { header := ["ValueDate", "MVA"],
        rows := [[.str "2024-01-01 00:00:00", .num 5]] })] []).2.2.2.1
    "Aberaeron" { header := ["foo"], rows := [] } (PErr.columnNotFound "timestamp")
    (by decide) (by rfl)

/-! ## C2 — consolidation sorts but neither merges with history nor dedups -/

theorem indexOf?_append_left {l1 l2 : List String} {a : String} {i : Nat}
    (h : l1.indexOf? a = some i) : (l1 ++ l2).indexOf? a = some i := by
  induction l1 generalizing i with
  | nil => simp [List.indexOf?_nil] at h
  | cons x xs ih =>
    rw [List.cons_append, List.indexOf?_cons]
    rw [List.indexOf?_cons] at h
    split at h <;> rename_i hx
    · rw [if_pos hx]
      exact h
    · rw [if_neg hx]
      rcases Option.map_eq_some'.mp h with ⟨k, hk, rfl⟩
      rw [ih hk]
      rfl

theorem indexOf?_lt_length {l : List String} {a : String} {i : Nat}
    (h : l.indexOf? a = some i) : i < l.length := by
  induction l generalizing i with
  | nil => simp [List.indexOf?_nil] at h
  | cons x xs ih =>
    rw [List.indexOf?_cons] at h
    split at h
    · cases h
      simp
    · rcases Option.map_eq_some'.mp h with ⟨k, hk, rfl⟩
      simpa using ih hk

theorem charListLe_total : ∀ a b, charListLe a b = true ∨ charListLe b a = true := by
  intro a
  induction a with
  | nil => intro b; left; rfl
  | cons x xs ih =>
    intro b
    cases b with
    | nil => right; rfl
    | cons y ys =>
      simp only [charListLe]
      rcases Nat.lt_trichotomy x.toNat y.toNat with h | h | h
      · left; rw [if_pos h]
      · rw [if_neg (by omega), if_neg (by omega), if_neg (by omega), if_neg (by omega)]
        exact ih ys
      · right; rw [if_pos h]

theorem charListLe_trans : ∀ a b c, charListLe a b = true → charListLe b c = true →
    charListLe a c = true := by
  intro a
  induction a with
  | nil => intro b c _ _; rfl
  | cons x xs ih =>
    intro b c hab hbc
    cases b with
    | nil => simp [charListLe] at hab
    | cons y ys =>
      cases c with
      | nil => simp [charListLe] at hbc
      | cons z zs =>
        simp only [charListLe] at *
        by_cases hxy : x.toNat < y.toNat <;> by_cases hyz : y.toNat < z.toNat
        · rw [if_pos (by omega)]
        · rw [if_neg hyz] at hbc
          split at hbc
          · simp at hbc
          · rename_i hzy
            have : y.toNat = z.toNat := by omega
            rw [if_pos (by omega)]
        · rw [if_neg hxy] at hab
          split at hab
          · simp at hab
          · rename_i hyx
            have : x.toNat = y.toNat := by omega
            rw [if_pos (by omega)]
        · rw [if_neg hxy] at hab
          rw [if_neg hyz] at hbc
          split at hab
          · simp at hab
          · split at hbc
            · simp at hbc
            · rename_i hyx hzy
              rw [if_neg (by omega), if_neg (by omega)]
              exact ih ys zs hab hbc

theorem charListLe_antisymm : ∀ a b, charListLe a b = true → charListLe b a = true →
    a = b := by
  intro a
  induction a with
  | nil =>
    intro b _ hba
    cases b with
    | nil => rfl
    | cons y ys => simp [charListLe] at hba
  | cons x xs ih =>
    intro b hab hba
    cases b with
    | nil => simp [charListLe] at hab
    | cons y ys =>
      simp only [charListLe] at hab hba
      by_cases hxy : x.toNat < y.toNat
      · rw [if_neg (by omega)] at hba
        rw [if_pos hxy] at hba
        simp at hba
      · rw [if_neg hxy] at hab
        split at hab
        · simp at hab
        · rename_i hyx
          have heq : x.toNat = y.toNat := by omega
          rw [if_neg (by omega), if_neg (by omega)] at hba
          have hchar : x = y := Char.ext (UInt32.ext heq)
          rw [ih ys hab hba, hchar]

theorem optIntLe_total : ∀ a b, optIntLe a b = true ∨ optIntLe b a = true := by
  intro a b
  cases a <;> cases b <;> simp [optIntLe] <;> omega

theorem optIntLe_trans : ∀ a b c, optIntLe a b = true → optIntLe b c = true →
    optIntLe a c = true := by
  intro a b c hab hbc
  cases a <;> cases b <;> cases c <;> simp [optIntLe] at * <;> omega

theorem optStrLe_total : ∀ a b, optStrLe a b = true ∨ optStrLe b a = true := by
  intro a b
  cases a <;> cases b <;> simp [optStrLe]
  apply charListLe_total

theorem optStrLe_trans : ∀ a b c, optStrLe a b = true → optStrLe b c = true →
    optStrLe a c = true := by
  intro a b c hab hbc
  cases a <;> cases b <;> cases c <;> simp [optStrLe] at *
  exact charListLe_trans _ _ _ hab hbc

theorem optStrLe_antisymm : ∀ a b, optStrLe a b = true → optStrLe b a = true →
    a = b := by
  intro a b hab hba
  cases a <;> cases b <;> simp [optStrLe] at *
  rename_i x y
  have := charListLe_antisymm _ _ hab hba
  exact String.ext this

theorem rowNameTsLe_total (i j : Nat) : ∀ r1 r2,
    rowNameTsLe i j r1 r2 = true ∨ rowNameTsLe i j r2 r1 = true := by
  intro r1 r2
  unfold rowNameTsLe
  by_cases h : nameSortKey (r1.getD i .null) = nameSortKey (r2.getD i .null)
  · rw [if_pos (beq_iff_eq.mpr h), if_pos (beq_iff_eq.mpr h.symm)]
    apply optIntLe_total
  · rw [if_neg (fun hc => h (beq_iff_eq.mp hc)),
      if_neg (fun hc => h (beq_iff_eq.mp hc).symm)]
    apply optStrLe_total

theorem rowNameTsLe_trans (i j : Nat) : ∀ r1 r2 r3,
    rowNameTsLe i j r1 r2 = true → rowNameTsLe i j r2 r3 = true →
    rowNameTsLe i j r1 r3 = true := by
  intro r1 r2 r3 h12 h23
  unfold rowNameTsLe at *
  by_cases hab : nameSortKey (r1.getD i .null) = nameSortKey (r2.getD i .null) <;>
  by_cases hbc : nameSortKey (r2.getD i .null) = nameSortKey (r3.getD i .null)
  · rw [if_pos (beq_iff_eq.mpr hab)] at h12
    rw [if_pos (beq_iff_eq.mpr hbc)] at h23
    rw [if_pos (beq_iff_eq.mpr (hab.trans hbc))]
    exact optIntLe_trans _ _ _ h12 h23
  · rw [if_neg (fun hc => hbc (beq_iff_eq.mp hc))] at h23
    have hac : nameSortKey (r1.getD i .null) ≠ nameSortKey (r3.getD i .null) := by
      rw [hab]; exact hbc
    rw [if_neg (fun hc => hac (beq_iff_eq.mp hc))]
    rw [hab]
    exact h23
  · rw [if_neg (fun hc => hab (beq_iff_eq.mp hc))] at h12
    have hac : nameSortKey (r1.getD i .null) ≠ nameSortKey (r3.getD i .null) := by
      rw [← hbc]; exact hab
    rw [if_neg (fun hc => hac (beq_iff_eq.mp hc))]
    rw [← hbc]
    exact h12
  · rw [if_neg (fun hc => hab (beq_iff_eq.mp hc))] at h12
    rw [if_neg (fun hc => hbc (beq_iff_eq.mp hc))] at h23
    by_cases hac : nameSortKey (r1.getD i .null) = nameSortKey (r3.getD i .null)
    · exfalso
      apply hab
      apply optStrLe_antisymm _ _ h12
      rw [← hac] at h23
      exact h23
    · rw [if_neg (fun hc => hac (beq_iff_eq.mp hc))]
      exact optStrLe_trans _ _ _ h12 h23

/-- Inversion of `Except` bind: a successful chain has a successful head. -/
theorem except_bind_ok {ε α β : Type} {x : Except ε α} {f : α → Except ε β} {b : β}
    (h : (x >>= f) = .ok b) : ∃ a, x = .ok a ∧ f a = .ok b := by
  cases x with
  | error e => simp [Bind.bind, Except.bind] at h
  | ok a =>
    refine ⟨a, rfl, ?_⟩
    simpa [Bind.bind, Except.bind] using h

/-- C2 amended: the consolidation step does not merge with any prior history
and does not deduplicate.  For rectangular regional frames, the persisted
frame holds exactly the concatenation of the four inputs' (name, timestamp)
records — record count equals the *sum* of the input counts, the multiset of
records is preserved unchanged, and rows are sorted so that within each
substation name timestamps are non-decreasing (not strictly increasing:
duplicates survive). -/
theorem consolidation_sorted_but_no_dedup (a b c d g : Frame)
    (ra : a.Rect) (rb : b.Rect) (rc : c.Rect) (rd : d.Rect)
    (hres : nged_live_primary_data a b c d = .ok g) :
    g.rows.length = a.rows.length + b.rows.length + c.rows.length + d.rows.length ∧
    (nameTsPairs g).Perm
      (nameTsPairs a ++ nameTsPairs b ++ nameTsPairs c ++ nameTsPairs d) ∧
    (nameTsPairs g).Pairwise (fun p q =>
      p.1 = q.1 → optIntLe (tsSortKey p.2) (tsSortKey q.2) = true) := by
  unfold nged_live_primary_data at hres
  obtain ⟨df0, hcv, hres⟩ := except_bind_ok hres
  obtain ⟨df1, hsort, hres⟩ := except_bind_ok hres
  obtain ⟨df2, hmonth, hres⟩ := except_bind_ok hres
  -- the trailing `pure df` step
  have hg : df2 = g := by
    simpa [pure, Except.pure] using hres
  subst hg
  -- invert the vertical concat
  simp only [concatVertical] at hcv
  split at hcv
  case isFalse => exact absurd hcv (by simp)
  case isTrue hall =>
  injection hcv with hcv
  simp only [List.all_cons, List.all_nil, Bool.and_eq_true, beq_iff_eq] at hall
  obtain ⟨hbh, hch, hdh, -⟩ := hall
  -- invert the sort
  unfold Frame.sortNameTs at hsort
  rcases hci : df0.colIdx "substation_name" with _ | i
  · rw [hci] at hsort; simp at hsort
  rcases hcj : df0.colIdx "timestamp" with _ | j
  · rw [hci, hcj] at hsort; simp at hsort
  rw [hci, hcj] at hsort
  injection hsort with hsort
  -- invert the month column
  unfold Frame.withMonthColumn at hmonth
  have hdf1head : df1.header = df0.header := by rw [← hsort]
  have hcj1 : df1.colIdx "timestamp" = some j := by
    unfold Frame.colIdx
    rw [hdf1head]
    exact hcj
  rw [hcj1] at hmonth
  injection hmonth with hmonth
  subst hcv
  subst hsort
  subst hmonth
  -- abbreviations
  set hdr := a.header with hhdr
  set rows0 := a.rows ++ [b, c, d].flatMap (fun x => x.rows) with hrows0
  have hil : i < hdr.length := indexOf?_lt_length hci
  have hjl : j < hdr.length := indexOf?_lt_length hcj
  have hlen : ∀ r ∈ rows0, r.length = hdr.length := by
    intro r hr
    rw [hrows0] at hr
    rcases List.mem_append.mp hr with h | h
    · exact ra r h
    · rcases List.mem_flatMap.mp h with ⟨x, hx, hrx⟩
      simp only [List.mem_cons, List.not_mem_nil, or_false] at hx
      rcases hx with hx | hx | hx
      · subst hx; rw [rb r hrx, hbh]
      · subst hx; rw [rc r hrx, hch]
      · subst hx; rw [rd r hrx, hdh]
  have hsortedmem : ∀ r ∈ sortByLe (rowNameTsLe i j) rows0, r.length = hdr.length := by
    intro r hr
    exact hlen r ((perm_sortByLe (rowNameTsLe i j) rows0).mem_iff.mp hr)
  -- the three column-index facts
  have hgi : Frame.colIdx
      { header := hdr ++ ["month"],
        rows := (sortByLe (rowNameTsLe i j) rows0).map
          (fun r => r ++ [monthCell (r.getD j Cell.null)]) } "substation_name" =
      some i := indexOf?_append_left hci
  have hgj : Frame.colIdx
      { header := hdr ++ ["month"],
        rows := (sortByLe (rowNameTsLe i j) rows0).map
          (fun r => r ++ [monthCell (r.getD j Cell.null)]) } "timestamp" =
      some j := indexOf?_append_left hcj
  have hpairsg : nameTsPairs
      { header := hdr ++ ["month"],
        rows := (sortByLe (rowNameTsLe i j) rows0).map
          (fun r => r ++ [monthCell (r.getD j Cell.null)]) } =
      (sortByLe (rowNameTsLe i j) rows0).map
        (fun r => (r.getD i Cell.null, r.getD j Cell.null)) := by
    unfold nameTsPairs Frame.getCol
    rw [hgi, hgj]
    simp only [List.map_map, List.zip_map']
    refine List.map_congr_left ?_
    intro r hr
    have hrlen := hsortedmem r hr
    simp only [Function.comp_apply]
    rw [List.getD_append _ _ _ _ (by omega), List.getD_append _ _ _ _ (by omega)]
  refine ⟨?_, ?_, ?_⟩
  · rw [hrows0]
    simp only [List.length_map, length_sortByLe, List.length_append,
      List.flatMap_cons, List.flatMap_nil, List.append_nil]
    omega
  · rw [hpairsg]
    have hperm := (perm_sortByLe (rowNameTsLe i j) rows0).map
      (fun r => (r.getD i Cell.null, r.getD j Cell.null))
    refine hperm.trans ?_
    have hpa : nameTsPairs a = a.rows.map
        (fun r => (r.getD i Cell.null, r.getD j Cell.null)) := by
      unfold nameTsPairs Frame.getCol
      rw [show Frame.colIdx a "substation_name" = some i from hci,
        show Frame.colIdx a "timestamp" = some j from hcj]
      rw [List.zip_map']
    have hpb : nameTsPairs b = b.rows.map
        (fun r => (r.getD i Cell.null, r.getD j Cell.null)) := by
      unfold nameTsPairs Frame.getCol
      rw [show Frame.colIdx b "substation_name" = some i from by
          unfold Frame.colIdx; rw [hbh]; exact hci,
        show Frame.colIdx b "timestamp" = some j from by
          unfold Frame.colIdx; rw [hbh]; exact hcj]
      rw [List.zip_map']
    have hpc : nameTsPairs c = c.rows.map
        (fun r => (r.getD i Cell.null, r.getD j Cell.null)) := by
      unfold nameTsPairs Frame.getCol
      rw [show Frame.colIdx c "substation_name" = some i from by
          unfold Frame.colIdx; rw [hch]; exact hci,
        show Frame.colIdx c "timestamp" = some j from by
          unfold Frame.colIdx; rw [hch]; exact hcj]
      rw [List.zip_map']
    have hpd : nameTsPairs d = d.rows.map
        (fun r => (r.getD i Cell.null, r.getD j Cell.null)) := by
      unfold nameTsPairs Frame.getCol
      rw [show Frame.colIdx d "substation_name" = some i from by
          unfold Frame.colIdx; rw [hdh]; exact hci,
        show Frame.colIdx d "timestamp" = some j from by
          unfold Frame.colIdx; rw [hdh]; exact hcj]
      rw [List.zip_map']
    rw [hpa, hpb, hpc, hpd, hrows0]
    simp [List.map_append, List.flatMap_cons, List.flatMap_nil, List.append_assoc]
  · rw [hpairsg]
    rw [List.pairwise_map]
    have hsorted := sorted_sortByLe (rowNameTsLe i j) (rowNameTsLe_total i j)
      (rowNameTsLe_trans i j) rows0
    refine List.Pairwise.imp ?_ hsorted
    intro r1 r2 hle
    intro heq
    show optIntLe (tsSortKey (r1.getD j Cell.null)) (tsSortKey (r2.getD j Cell.null)) = true
    replace heq : r1.getD i Cell.null = r2.getD i Cell.null := heq
    unfold rowNameTsLe at hle
    rw [if_pos (beq_iff_eq.mpr (by rw [heq]))] at hle
    exact hle
/-- C2 counterexample: consolidating two regional frames that carry the same
(substation, timestamp) reading persists both rows: the code reads no prior
history and removes no duplicates, so the persisted timestamps are not
strictly increasing, contain a duplicate, and the record count (2) exceeds
the number of distinct timestamps (1). -/
theorem nged_live_primary_data_keeps_duplicate_timestamps :
    (nged_live_primary_data
      ⟨["substation_name", "timestamp", "MVA"], [[.str "A", .dt 100, .num 5]]⟩
      ⟨["substation_name", "timestamp", "MVA"], [[.str "A", .dt 100, .num 6]]⟩
      ⟨["substation_name", "timestamp", "MVA"], []⟩
      ⟨["substation_name", "timestamp", "MVA"], []⟩).map
        (fun f => (f.getCol "timestamp", f.rows.length)) =
      .ok ([Cell.dt 100, Cell.dt 100], 2) ∧
    ([Cell.dt 100, Cell.dt 100] : List Cell).dedup.length = 1 :=
  ⟨by rfl, by decide⟩

/-- C2 witness: the amended theorem applied to concrete rectangular regional
frames (two frames carrying one reading each, two empty). -/
theorem consolidation_sorted_but_no_dedup_witness :
    ({ header := ["substation_name", "timestamp", "MVA", "month"],
       rows := [[Cell.str "A", Cell.dt 100, Cell.num 5, Cell.str "0"],
                [Cell.str "A", Cell.dt 100, Cell.num 6, Cell.str "0"]] } : Frame).rows.length =
      ({ header := ["substation_name", "timestamp", "MVA"],
         rows := [[Cell.str "A", Cell.dt 100, Cell.num 5]] } : Frame).rows.length +
      ({ header := ["substation_name", "timestamp", "MVA"],
         rows := [[Cell.str "A", Cell.dt 100, Cell.num 6]] } : Frame).rows.length +
      ({ header := ["substation_name", "timestamp", "MVA"], rows := [] } : Frame).rows.length +
      ({ header := ["substation_name", "timestamp", "MVA"], rows := [] } : Frame).rows.length :=
  (consolidation_sorted_but_no_dedup
    { header := ["substation_name", "timestamp", "MVA"],
      rows := [[Cell.str "A", Cell.dt 100, Cell.num 5]] }
    { header := ["substation_name", "timestamp", "MVA"],
      rows := [[Cell.str "A", Cell.dt 100, Cell.num 6]] }
    { header := ["substation_name", "timestamp", "MVA"], rows := [] }
    { header := ["substation_name", "timestamp", "MVA"], rows := [] }
    { header := ["substation_name", "timestamp", "MVA", "month"],
      rows := [[Cell.str "A", Cell.dt 100, Cell.num 5, Cell.str "0"],
               [Cell.str "A", Cell.dt 100, Cell.num 6, Cell.str "0"]] }
    (by unfold Frame.Rect; decide) (by unfold Frame.Rect; decide)
    (by unfold Frame.Rect; decide) (by unfold Frame.Rect; decide) (by rfl)).1

theorem toDatetimeUTC_ok {f g : Frame} (h : toDatetimeUTC f = .ok g) :
    ∃ i rows, f.colIdx "timestamp" = some i ∧ g = { f with rows := rows } := by
  unfold toDatetimeUTC at h
  rcases hci : f.colIdx "timestamp" with _ | i
  · rw [hci] at h; simp at h
  · rw [hci] at h
    obtain ⟨rows, hrows, h⟩ := except_bind_ok h
    refine ⟨i, rows, rfl, ?_⟩
    simpa [pure, Except.pure] using h.symm

theorem castCol_ok {f g : Frame} {c : String} {d : DType}
    (h : f.castCol c d = .ok g) : ∃ i rows, f.colIdx c = some i ∧
      g = { f with rows := rows } := by
  unfold Frame.castCol at h
  rcases hci : f.colIdx c with _ | i
  · rw [hci] at h; simp at h
  · rw [hci] at h
    obtain ⟨rows, hrows, h⟩ := except_bind_ok h
    refine ⟨i, rows, rfl, ?_⟩
    simpa [pure, Except.pure] using h.symm

theorem castCols_ok_header {cols : List String} : ∀ {f g : Frame},
    f.castCols cols = .ok g → g.header = f.header := by
  unfold Frame.castCols
  induction cols with
  | nil =>
    intro f g h
    simp only [List.foldlM_nil, pure, Except.pure] at h
    injection h with h
    rw [← h]
  | cons c rest ih =>
    intro f g h
    rw [List.foldlM_cons] at h
    obtain ⟨f1, hf1, h⟩ := except_bind_ok h
    obtain ⟨i, rows, -, hfeq⟩ := castCol_ok hf1
    have := ih h
    rw [this, hfeq]

theorem sortTs_ok {f g : Frame} (h : f.sortTs = .ok g) :
    ∃ i, f.colIdx "timestamp" = some i ∧
      g = { f with rows := sortByLe (rowTsLe i) f.rows } := by
  unfold Frame.sortTs at h
  rcases hci : f.colIdx "timestamp" with _ | i
  · rw [hci] at h; simp at h
  · rw [hci] at h
    injection h with h
    exact ⟨i, rfl, h.symm⟩

theorem validate_ok_id {f g : Frame} {am as : Bool}
    (h : SubstationFlows.validate f am as false = .ok g) : g = f := by
  unfold SubstationFlows.validate at h
  split at h
  · simp at h
  · split at h
    · rw [if_neg (by simp)] at h
      injection h with h
      exact h.symm
    · simp at h

theorem validate_ok_power {f g : Frame} {am as ds : Bool}
    (h : SubstationFlows.validate f am as ds = .ok g) :
    f.hasCol "MW" = true ∨ f.hasCol "MVA" = true := by
  unfold SubstationFlows.validate at h
  split at h
  · simp at h
  · rename_i hc
    rcases hmw : f.hasCol "MW" with _ | _
    · rcases hmva : f.hasCol "MVA" with _ | _
      · exact absurd (by rw [hmw, hmva]; rfl) hc
      · right; rfl
    · left; rfl

theorem validate_ok_schema {f g : Frame} {am as ds : Bool}
    (h : SubstationFlows.validate f am as ds = .ok g) :
    SchemaAccepted f am as ds := by
  unfold SubstationFlows.validate at h
  split at h
  · simp at h
  · split at h
    · rename_i hnil
      exact (patitoIssues_nil_iff f am as ds).mp hnil
    · simp at h
theorem hasCol_true_of_colIdx {f : Frame} {c : String} {i : Nat}
    (h : f.colIdx c = some i) : f.hasCol c = true := by
  rcases hb : f.hasCol c with _ | _
  · rw [(hasCol_eq_false_iff f c).mp hb] at h
    cases h
  · rfl

theorem rowTsLe_total (i : Nat) : ∀ r1 r2,
    rowTsLe i r1 r2 = true ∨ rowTsLe i r2 r1 = true := by
  intro r1 r2
  exact optIntLe_total _ _

theorem rowTsLe_trans (i : Nat) : ∀ r1 r2 r3,
    rowTsLe i r1 r2 = true → rowTsLe i r2 r3 = true → rowTsLe i r1 r3 = true := by
  intro r1 r2 r3 h12 h23
  exact optIntLe_trans _ _ _ h12 h23

theorem matchesDType_datetime {cell : Cell}
    (h : cell.matchesDType .datetime = true) (hn : cell ≠ .null) :
    ∃ t, cell = Cell.dt t := by
  cases cell <;> simp_all [Cell.matchesDType]

/-- Shared final-phase facts: a frame accepted by
`SubstationFlows.validate _ true false false` with `timestamp` present has
only parsed instants there, and carries a power column. -/
theorem validated_frame_profile {f g : Frame}
    (h : SubstationFlows.validate f true = .ok g)
    (hts : f.hasCol "timestamp" = true) :
    (∀ cell ∈ g.getCol "timestamp", ∃ t, cell = Cell.dt t) ∧
    (g.hasCol "MW" = true ∨ g.hasCol "MVA" = true) := by
  have hid := validate_ok_id h
  subst hid
  have hacc := validate_ok_schema h
  obtain ⟨-, -, hcols⟩ := hacc
  have hok := hcols "timestamp" (by simp [SubstationFlows.columns]) hts
  obtain ⟨hdt, hnull, -⟩ := hok
  refine ⟨?_, validate_ok_power h⟩
  intro cell hcell
  exact matchesDType_datetime (hdt cell hcell)
    (hnull (by rfl) cell hcell)
theorem mapError_ok {x : Except VError Frame} {e : VError → PErr} {g : Frame}
    (h : x.mapError e = .ok g) : x = .ok g := by
  cases x with
  | error err => simp [Except.mapError] at h
  | ok a => simpa [Except.mapError] using h

theorem hasCol_iff_mem {f : Frame} {c : String} :
    f.hasCol c = true ↔ c ∈ f.header := by
  unfold Frame.hasCol
  exact List.elem_iff

theorem read_primary_substation_csv_profile {csv : Frame} {label : String}
    {g : Frame} (h : read_primary_substation_csv csv label = .ok g) :
    "timestamp" ∈ g.header ∧
    (∀ cell ∈ g.getCol "timestamp", ∃ t, cell = Cell.dt t) ∧
    g.header.Sublist SubstationFlows.columns ∧
    ("MW" ∈ g.header ∨ "MVA" ∈ g.header) := by
  unfold read_primary_substation_csv at h
  obtain ⟨f2, hbr, h⟩ := except_bind_ok h
  obtain ⟨f3, hrn, h⟩ := except_bind_ok h
  obtain ⟨f4, hdt, h⟩ := except_bind_ok h
  obtain ⟨f5, hcast, h⟩ := except_bind_ok h
  have hval := mapError_ok h
  obtain ⟨i, rows4, hci3, hf4⟩ := toDatetimeUTC_ok hdt
  have hts4 : f4.hasCol "timestamp" = true := by
    rw [hf4]
    exact hasCol_true_of_colIdx hci3
  have htsmem : "timestamp" ∈ SubstationFlows.columns.filter f4.hasCol := by
    rw [List.mem_filter]
    exact ⟨by simp [SubstationFlows.columns], hts4⟩
  have h5head : f5.header = SubstationFlows.columns.filter f4.hasCol := by
    rw [castCols_ok_header hcast]
    rfl
  have hts5 : f5.hasCol "timestamp" = true := by
    rw [hasCol_iff_mem, h5head]
    exact htsmem
  have hgid := validate_ok_id hval
  subst hgid
  obtain ⟨hdtcells, hpower⟩ := validated_frame_profile hval hts5
  refine ⟨?_, hdtcells, ?_, ?_⟩
  · rw [← hasCol_iff_mem]
    exact hts5
  · rw [h5head]
    exact List.filter_sublist _
  · rcases hpower with hp | hp
    · left; exact hasCol_iff_mem.mp hp
    · right; exact hasCol_iff_mem.mp hp

theorem process_flows_profile {csv : Frame} {g : Frame}
    (h : process_live_primary_substation_flows csv = .ok g) :
    ("timestamp" ∈ g.header ∧
     (∀ cell ∈ g.getCol "timestamp", ∃ t, cell = Cell.dt t) ∧
     g.header.Sublist SubstationFlows.columns ∧
     ("MW" ∈ g.header ∨ "MVA" ∈ g.header)) ∧
    (g.getCol "timestamp").Pairwise
      (fun c1 c2 => optIntLe (tsSortKey c1) (tsSortKey c2) = true) := by
  unfold process_live_primary_substation_flows at h
  obtain ⟨f2, hbr, h⟩ := except_bind_ok h
  obtain ⟨f3, hrn, h⟩ := except_bind_ok h
  obtain ⟨f5, hcast, h⟩ := except_bind_ok h
  obtain ⟨f6, hsortr, h⟩ := except_bind_ok h
  have hval := mapError_ok h
  obtain ⟨i, hci, hf6⟩ := sortTs_ok hsortr
  have hts6 : f6.hasCol "timestamp" = true := by
    rw [hf6]
    exact hasCol_true_of_colIdx hci
  have hgid := validate_ok_id hval
  subst hgid
  obtain ⟨hdtcells, hpower⟩ := validated_frame_profile hval hts6
  constructor
  · refine ⟨?_, hdtcells, ?_, ?_⟩
    · rw [← hasCol_iff_mem]
      exact hts6
    · have h5h : f5.header = List.filter f3.hasCol SubstationFlows.columns := by
        rw [castCols_ok_header hcast]
        rfl
      have h6h : g.header = f5.header := by rw [hf6]
      rw [h6h, h5h]
      exact List.filter_sublist _
    · rcases hpower with hp | hp
      · left; exact hasCol_iff_mem.mp hp
      · right; exact hasCol_iff_mem.mp hp
  · have hgcol : g.getCol "timestamp" =
        (sortByLe (rowTsLe i) f5.rows).map (fun r => r.getD i Cell.null) := by
      rw [hf6]
      unfold Frame.getCol
      rw [show Frame.colIdx { f5 with rows := sortByLe (rowTsLe i) f5.rows }
        "timestamp" = some i from hci]
    rw [hgcol, List.pairwise_map]
    exact sorted_sortByLe (rowTsLe i) (rowTsLe_total i) (rowTsLe_trans i) f5.rows
theorem getD_append_left {r : List Cell} {x : Cell} {k : Nat} (hk : k < r.length) :
    (r ++ [x]).getD k .null = r.getD k .null := by
  rw [List.getD_append]
  exact hk

theorem long_format_getCol_unit (rows : List (List Cell)) (label : String)
    (hrect : ∀ r ∈ rows, r.length = 4) :
    (Frame.withColumnLit ⟨["site", "time", "unit", "value"], rows⟩
      "substation_name" (Cell.str label)).getCol "unit" =
    rows.map (fun r => r.getD 2 Cell.null) := by
  have h1 : Frame.withColumnLit ⟨["site", "time", "unit", "value"], rows⟩
      "substation_name" (Cell.str label) =
      ⟨["site", "time", "unit", "value", "substation_name"],
        rows.map (fun r => r ++ [Cell.str label])⟩ := rfl
  rw [h1]
  have h2 : Frame.getCol ⟨["site", "time", "unit", "value", "substation_name"],
      rows.map (fun r => r ++ [Cell.str label])⟩ "unit" =
      (rows.map (fun r => r ++ [Cell.str label])).map
        (fun r => r.getD 2 Cell.null) := rfl
  rw [h2, List.map_map]
  refine List.map_congr_left ?_
  intro r hr
  simp only [Function.comp_apply]
  exact getD_append_left (by rw [hrect r hr]; omega)
theorem mem_distinctUnits (f : Frame) (u : String) :
    u ∈ f.distinctUnits ↔ Cell.str u ∈ f.getCol "unit" := by
  unfold Frame.distinctUnits
  rw [List.mem_dedup, List.mem_filterMap]
  constructor
  · rintro ⟨c, hc, hm⟩
    cases c <;> simp at hm
    rename_i s
    rw [← hm]
    exact hc
  · intro h
    exact ⟨.str u, h, rfl⟩

theorem allUnitsEq_of_all (f : Frame) (u : String)
    (h : ∀ cell ∈ f.getCol "unit", cell = .str u) : f.allUnitsEq u = true := by
  unfold Frame.allUnitsEq
  rw [List.all_eq_true]
  intro c hc
  rw [h c hc]
  simp

theorem allUnitsEq_false_of_other (f : Frame) (u v : String) (hne : u ≠ v)
    (hmem : Cell.str u ∈ f.getCol "unit") : f.allUnitsEq v = false := by
  unfold Frame.allUnitsEq
  rw [Bool.eq_false_iff]
  intro hall
  have := List.all_eq_true.mp hall _ hmem
  simp only [beq_iff_eq] at this
  exact hne this

theorem read_long_all_MW (rows : List (List Cell)) (label : String)
    (hrect : ∀ r ∈ rows, r.length = 4) (hne : rows ≠ [])
    (hall : ∀ r ∈ rows, r.getD 2 Cell.null = .str "MW") (g : Frame)
    (h : read_primary_substation_csv ⟨["site", "time", "unit", "value"], rows⟩
      label = .ok g) :
    g.header = ["substation_name", "timestamp", "MW"] := by
  have h1 : Frame.withColumnLit ⟨["site", "time", "unit", "value"], rows⟩
      "substation_name" (Cell.str label) =
      ⟨["site", "time", "unit", "value", "substation_name"],
        rows.map (fun r => r ++ [Cell.str label])⟩ := rfl
  have hcol := long_format_getCol_unit rows label hrect
  rw [h1] at hcol
  have hallf : ∀ cell ∈ (⟨["site", "time", "unit", "value", "substation_name"],
      rows.map (fun r => r ++ [Cell.str label])⟩ : Frame).getCol "unit",
      cell = .str "MW" := by
    rw [hcol]
    intro cell hc
    rcases List.mem_map.mp hc with ⟨r, hr, hcell⟩
    rw [← hcell]
    exact hall r hr
  have hmem : Cell.str "MW" ∈ (⟨["site", "time", "unit", "value", "substation_name"],
      rows.map (fun r => r ++ [Cell.str label])⟩ : Frame).getCol "unit" := by
    rw [hcol]
    rcases rows with _ | ⟨r, rest⟩
    · exact absurd rfl hne
    · rw [List.map_cons]
      rw [show (r.getD 2 Cell.null) = .str "MW" from hall r (by simp)]
      simp
  have hMW := allUnitsEq_of_all _ "MW" hallf
  have hMVA := allUnitsEq_false_of_other _ "MW" "MVA" (by decide) hmem
  have hnMVA : ¬ ((⟨["site", "time", "unit", "value", "substation_name"],
      rows.map (fun r => r ++ [Cell.str label])⟩ : Frame).allUnitsEq "MVA" = true) := by
    simp [hMVA]
  have hbranch : unitBranchRead
      ⟨["site", "time", "unit", "value", "substation_name"],
        rows.map (fun r => r ++ [Cell.str label])⟩ =
      .ok ⟨["site", "timestamp", "unit", "MW", "substation_name"],
        rows.map (fun r => r ++ [Cell.str label])⟩ := by
    unfold unitBranchRead
    split
    case isFalse hcond => exact absurd rfl hcond
    case isTrue hcond =>
      rfl
  unfold read_primary_substation_csv at h
  obtain ⟨f2, hf2, h⟩ := except_bind_ok h
  rw [h1, hbranch] at hf2
  injection hf2 with hf2
  subst hf2
  obtain ⟨f3, hf3, h⟩ := except_bind_ok h
  rw [show Frame.rename ⟨["site", "timestamp", "unit", "MW", "substation_name"],
      rows.map (fun r => r ++ [Cell.str label])⟩ renameTableRead =
      .ok ⟨["site", "timestamp", "unit", "MW", "substation_name"],
        rows.map (fun r => r ++ [Cell.str label])⟩ from rfl] at hf3
  injection hf3 with hf3
  subst hf3
  obtain ⟨f4, hdt, h⟩ := except_bind_ok h
  obtain ⟨i, rows4, hci, hf4⟩ := toDatetimeUTC_ok hdt
  subst hf4
  obtain ⟨f5, hcast, h⟩ := except_bind_ok h
  have hval := mapError_ok h
  have hgid := validate_ok_id hval
  subst hgid
  rw [castCols_ok_header hcast]
  rfl
theorem read_long_all_MVA (rows : List (List Cell)) (label : String)
    (hrect : ∀ r ∈ rows, r.length = 4)
    (hall : ∀ r ∈ rows, r.getD 2 Cell.null = .str "MVA") (g : Frame)
    (h : read_primary_substation_csv ⟨["site", "time", "unit", "value"], rows⟩
      label = .ok g) :
    g.header = ["substation_name", "timestamp", "MVA"] := by
  have h1 : Frame.withColumnLit ⟨["site", "time", "unit", "value"], rows⟩
      "substation_name" (Cell.str label) =
      ⟨["site", "time", "unit", "value", "substation_name"],
        rows.map (fun r => r ++ [Cell.str label])⟩ := rfl
  have hcol := long_format_getCol_unit rows label hrect
  rw [h1] at hcol
  have hallf : ∀ cell ∈ (⟨["site", "time", "unit", "value", "substation_name"],
      rows.map (fun r => r ++ [Cell.str label])⟩ : Frame).getCol "unit",
      cell = .str "MVA" := by
    rw [hcol]
    intro cell hc
    rcases List.mem_map.mp hc with ⟨r, hr, hcell⟩
    rw [← hcell]
    exact hall r hr
  have hMVA := allUnitsEq_of_all _ "MVA" hallf
  have hbranch : unitBranchRead
      ⟨["site", "time", "unit", "value", "substation_name"],
        rows.map (fun r => r ++ [Cell.str label])⟩ =
      .ok ⟨["site", "timestamp", "unit", "MVA", "substation_name"],
        rows.map (fun r => r ++ [Cell.str label])⟩ := by
    unfold unitBranchRead
    split
    case isFalse hcond => exact absurd rfl hcond
    case isTrue hcond =>
      rfl
  unfold read_primary_substation_csv at h
  obtain ⟨f2, hf2, h⟩ := except_bind_ok h
  rw [h1, hbranch] at hf2
  injection hf2 with hf2
  subst hf2
  obtain ⟨f3, hf3, h⟩ := except_bind_ok h
  rw [show Frame.rename ⟨["site", "timestamp", "unit", "MVA", "substation_name"],
      rows.map (fun r => r ++ [Cell.str label])⟩ renameTableRead =
      .ok ⟨["site", "timestamp", "unit", "MVA", "substation_name"],
        rows.map (fun r => r ++ [Cell.str label])⟩ from rfl] at hf3
  injection hf3 with hf3
  subst hf3
  obtain ⟨f4, hdt, h⟩ := except_bind_ok h
  obtain ⟨i, rows4, hci, hf4⟩ := toDatetimeUTC_ok hdt
  subst hf4
  obtain ⟨f5, hcast, h⟩ := except_bind_ok h
  have hval := mapError_ok h
  have hgid := validate_ok_id hval
  subst hgid
  rw [castCols_ok_header hcast]
  rfl

theorem proc_long_all_MW (rows : List (List Cell)) (hne : rows ≠ [])
    (hall : ∀ r ∈ rows, r.getD 2 Cell.null = .str "MW") (g : Frame)
    (h : process_live_primary_substation_flows
      ⟨["site", "time", "unit", "value"], rows⟩ = .ok g) :
    g.header = ["timestamp", "MW"] := by
  have hcol : Frame.getCol ⟨["site", "time", "unit", "value"], rows⟩ "unit" =
      rows.map (fun r => r.getD 2 Cell.null) := rfl
  have hallf : ∀ cell ∈ (⟨["site", "time", "unit", "value"], rows⟩ : Frame).getCol
      "unit", cell = .str "MW" := by
    rw [hcol]
    intro cell hc
    rcases List.mem_map.mp hc with ⟨r, hr, hcell⟩
    rw [← hcell]
    exact hall r hr
  have hmem : Cell.str "MW" ∈
      (⟨["site", "time", "unit", "value"], rows⟩ : Frame).getCol "unit" := by
    rw [hcol]
    rcases rows with _ | ⟨r, rest⟩
    · exact absurd rfl hne
    · rw [List.map_cons]
      rw [show (r.getD 2 Cell.null) = .str "MW" from hall r (by simp)]
      simp
  have hMW := allUnitsEq_of_all _ "MW" hallf
  have hMVA := allUnitsEq_false_of_other _ "MW" "MVA" (by decide) hmem
  have hnMVA : ¬ ((⟨["site", "time", "unit", "value"], rows⟩ : Frame).allUnitsEq
      "MVA" = true) := by
    simp [hMVA]
  have hbranch : unitBranchProc ⟨["site", "time", "unit", "value"], rows⟩ =
      .ok ⟨["site", "time", "unit", "MW"], rows⟩ := by
    unfold unitBranchProc
    split
    case isFalse hcond => exact absurd rfl hcond
    case isTrue hcond =>
      rfl
  unfold process_live_primary_substation_flows at h
  obtain ⟨f2, hf2, h⟩ := except_bind_ok h
  rw [hbranch] at hf2
  injection hf2 with hf2
  subst hf2
  obtain ⟨f3, hf3, h⟩ := except_bind_ok h
  rw [show Frame.rename ⟨["site", "time", "unit", "MW"], rows⟩ renameTableProc =
      .ok ⟨["site", "timestamp", "unit", "MW"], rows⟩ from rfl] at hf3
  injection hf3 with hf3
  subst hf3
  obtain ⟨f5, hcast, h⟩ := except_bind_ok h
  obtain ⟨f6, hsortr, h⟩ := except_bind_ok h
  obtain ⟨i, hci, hf6⟩ := sortTs_ok hsortr
  have hval := mapError_ok h
  have hgid := validate_ok_id hval
  subst hgid
  rw [hf6]
  show f5.header = _
  rw [castCols_ok_header hcast]
  rfl

theorem proc_long_all_MVA (rows : List (List Cell))
    (hall : ∀ r ∈ rows, r.getD 2 Cell.null = .str "MVA") (g : Frame)
    (h : process_live_primary_substation_flows
      ⟨["site", "time", "unit", "value"], rows⟩ = .ok g) :
    g.header = ["timestamp", "MVA"] := by
  have hcol : Frame.getCol ⟨["site", "time", "unit", "value"], rows⟩ "unit" =
      rows.map (fun r => r.getD 2 Cell.null) := rfl
  have hallf : ∀ cell ∈ (⟨["site", "time", "unit", "value"], rows⟩ : Frame).getCol
      "unit", cell = .str "MVA" := by
    rw [hcol]
    intro cell hc
    rcases List.mem_map.mp hc with ⟨r, hr, hcell⟩
    rw [← hcell]
    exact hall r hr
  have hMVA := allUnitsEq_of_all _ "MVA" hallf
  have hbranch : unitBranchProc ⟨["site", "time", "unit", "value"], rows⟩ =
      .ok ⟨["site", "time", "unit", "MVA"], rows⟩ := by
    unfold unitBranchProc
    split
    case isFalse hcond => exact absurd rfl hcond
    case isTrue hcond =>
      rfl
  unfold process_live_primary_substation_flows at h
  obtain ⟨f2, hf2, h⟩ := except_bind_ok h
  rw [hbranch] at hf2
  injection hf2 with hf2
  subst hf2
  obtain ⟨f3, hf3, h⟩ := except_bind_ok h
  rw [show Frame.rename ⟨["site", "time", "unit", "MVA"], rows⟩ renameTableProc =
      .ok ⟨["site", "timestamp", "unit", "MVA"], rows⟩ from rfl] at hf3
  injection hf3 with hf3
  subst hf3
  obtain ⟨f5, hcast, h⟩ := except_bind_ok h
  obtain ⟨f6, hsortr, h⟩ := except_bind_ok h
  obtain ⟨i, hci, hf6⟩ := sortTs_ok hsortr
  have hval := mapError_ok h
  have hgid := validate_ok_id hval
  subst hgid
  rw [hf6]
  show f5.header = _
  rw [castCols_ok_header hcast]
  rfl
theorem read_of_branch_error {csv : Frame} {label : String} {e : PErr}
    (h : unitBranchRead (csv.withColumnLit "substation_name" (Cell.str label)) =
      .error e) :
    read_primary_substation_csv csv label = .error e := by
  unfold read_primary_substation_csv
  dsimp only
  rw [h]
  rfl

theorem proc_of_branch_error {csv : Frame} {e : PErr}
    (h : unitBranchProc csv = .error e) :
    process_live_primary_substation_flows csv = .error e := by
  unfold process_live_primary_substation_flows
  rw [h]
  rfl
theorem read_long_mixed (rows : List (List Cell)) (label : String)
    (hrect : ∀ r ∈ rows, r.length = 4)
    (hnMVA : Frame.allUnitsEq ⟨["site", "time", "unit", "value"], rows⟩ "MVA" = false)
    (hnMW : Frame.allUnitsEq ⟨["site", "time", "unit", "value"], rows⟩ "MW" = false) :
    read_primary_substation_csv ⟨["site", "time", "unit", "value"], rows⟩ label =
      .error (.mixedUnits
        (Frame.distinctUnits ⟨["site", "time", "unit", "value"], rows⟩)) := by
  have h1 : Frame.withColumnLit ⟨["site", "time", "unit", "value"], rows⟩
      "substation_name" (Cell.str label) =
      ⟨["site", "time", "unit", "value", "substation_name"],
        rows.map (fun r => r ++ [Cell.str label])⟩ := rfl
  have hcol := long_format_getCol_unit rows label hrect
  rw [h1] at hcol
  have e1 : (⟨["site", "time", "unit", "value", "substation_name"],
      rows.map (fun r => r ++ [Cell.str label])⟩ : Frame).allUnitsEq "MVA" = false := by
    unfold Frame.allUnitsEq at hnMVA ⊢
    rw [hcol]
    exact hnMVA
  have e2 : (⟨["site", "time", "unit", "value", "substation_name"],
      rows.map (fun r => r ++ [Cell.str label])⟩ : Frame).allUnitsEq "MW" = false := by
    unfold Frame.allUnitsEq at hnMW ⊢
    rw [hcol]
    exact hnMW
  have hne1 : ¬ ((⟨["site", "time", "unit", "value", "substation_name"],
      rows.map (fun r => r ++ [Cell.str label])⟩ : Frame).allUnitsEq "MVA" = true) := by
    simp [e1]
  have hne2 : ¬ ((⟨["site", "time", "unit", "value", "substation_name"],
      rows.map (fun r => r ++ [Cell.str label])⟩ : Frame).allUnitsEq "MW" = true) := by
    simp [e2]
  have hdu : (⟨["site", "time", "unit", "value", "substation_name"],
      rows.map (fun r => r ++ [Cell.str label])⟩ : Frame).distinctUnits =
      Frame.distinctUnits ⟨["site", "time", "unit", "value"], rows⟩ := by
    unfold Frame.distinctUnits
    rw [hcol]
    rfl
  refine read_of_branch_error ?_
  rw [h1]
  have hbranch : unitBranchRead
      ⟨["site", "time", "unit", "value", "substation_name"],
        rows.map (fun r => r ++ [Cell.str label])⟩ =
      .error (.mixedUnits ((⟨["site", "time", "unit", "value", "substation_name"],
        rows.map (fun r => r ++ [Cell.str label])⟩ : Frame).distinctUnits)) := by
    unfold unitBranchRead
    split
    case isFalse hcond => exact absurd rfl hcond
    case isTrue hcond =>
      rfl
  rw [hbranch, hdu]

theorem proc_long_mixed (rows : List (List Cell))
    (hnMVA : Frame.allUnitsEq ⟨["site", "time", "unit", "value"], rows⟩ "MVA" = false)
    (hnMW : Frame.allUnitsEq ⟨["site", "time", "unit", "value"], rows⟩ "MW" = false) :
    process_live_primary_substation_flows ⟨["site", "time", "unit", "value"], rows⟩ =
      .error (.mixedUnits
        (Frame.distinctUnits ⟨["site", "time", "unit", "value"], rows⟩)) := by
  have hne1 : ¬ ((⟨["site", "time", "unit", "value"], rows⟩ : Frame).allUnitsEq
      "MVA" = true) := by
    simp [hnMVA]
  have hne2 : ¬ ((⟨["site", "time", "unit", "value"], rows⟩ : Frame).allUnitsEq
      "MW" = true) := by
    simp [hnMW]
  refine proc_of_branch_error ?_
  unfold unitBranchProc
  split
  case isFalse hcond => exact absurd rfl hcond
  case isTrue hcond =>
    rfl
/-- C4: on the long layout `{site, time, unit, value}`, a file whose unit
column is constantly `MW` normalizes (in both normalizers) with `MW` as its
only power column; constantly `MVA` yields only `MVA`; and a mixed or
unrecognized unit column makes both normalizers fail with the `ValueError`
naming exactly the distinct unit values found in the file. -/
theorem long_format_unit_handling (rows : List (List Cell)) (label : String)
    (g : Frame) :
    ((∀ r ∈ rows, r.length = 4) → rows ≠ [] →
      (∀ r ∈ rows, r.getD 2 Cell.null = .str "MW") →
      (read_primary_substation_csv ⟨["site", "time", "unit", "value"], rows⟩
          label = .ok g → g.header = ["substation_name", "timestamp", "MW"]) ∧
      (process_live_primary_substation_flows
          ⟨["site", "time", "unit", "value"], rows⟩ = .ok g →
        g.header = ["timestamp", "MW"])) ∧
    ((∀ r ∈ rows, r.length = 4) →
      (∀ r ∈ rows, r.getD 2 Cell.null = .str "MVA") →
      (read_primary_substation_csv ⟨["site", "time", "unit", "value"], rows⟩
          label = .ok g → g.header = ["substation_name", "timestamp", "MVA"]) ∧
      (process_live_primary_substation_flows
          ⟨["site", "time", "unit", "value"], rows⟩ = .ok g →
        g.header = ["timestamp", "MVA"])) ∧
    ((∀ r ∈ rows, r.length = 4) →
      Frame.allUnitsEq ⟨["site", "time", "unit", "value"], rows⟩ "MVA" = false →
      Frame.allUnitsEq ⟨["site", "time", "unit", "value"], rows⟩ "MW" = false →
      read_primary_substation_csv ⟨["site", "time", "unit", "value"], rows⟩ label =
        .error (.mixedUnits
          (Frame.distinctUnits ⟨["site", "time", "unit", "value"], rows⟩)) ∧
      process_live_primary_substation_flows ⟨["site", "time", "unit", "value"], rows⟩ =
        .error (.mixedUnits
          (Frame.distinctUnits ⟨["site", "time", "unit", "value"], rows⟩)) ∧
      (∀ u, u ∈ Frame.distinctUnits ⟨["site", "time", "unit", "value"], rows⟩ ↔
        Cell.str u ∈ Frame.getCol ⟨["site", "time", "unit", "value"], rows⟩ "unit")) :=
  ⟨fun hrect hne hall =>
    ⟨read_long_all_MW rows label hrect hne hall g,
     proc_long_all_MW rows hne hall g⟩,
   fun hrect hall =>
    ⟨read_long_all_MVA rows label hrect hall g,
     proc_long_all_MVA rows hall g⟩,
   fun hrect hnMVA hnMW =>
    ⟨read_long_mixed rows label hrect hnMVA hnMW,
     proc_long_mixed rows hnMVA hnMW,
     fun u => mem_distinctUnits _ u⟩⟩

/-- C4 witness: the theorem applied to a concrete one-row MW long-format
file. -/
theorem long_format_unit_handling_witness :
    ({ header := ["substation_name", "timestamp", "MW"],
       rows := [[Cell.str "Regent", Cell.dt 65052979200, Cell.num 5]] } : Frame).header =
      ["substation_name", "timestamp", "MW"] :=
  ((long_format_unit_handling
      [[Cell.str "X", Cell.str "2024-01-01 00:00:00", Cell.str "MW", Cell.num 5]]
      "Regent"
      { header := ["substation_name", "timestamp", "MW"],
        rows := [[Cell.str "Regent", Cell.dt 65052979200, Cell.num 5]] }).1
    (by decide) (by decide) (by decide)).1 (by rfl)
/-- C5 amended: both normalizers emit only canonical columns with a power
column present and every timestamp parsed to an instant; additionally
`process_live_primary_substation_flows` returns its rows sorted ascending by
timestamp — but `read_primary_substation_csv` does not sort (see the
counterexample), so the sortedness half of the claim holds only for the
former. -/
theorem normalizer_output_profile (csv : Frame) (label : String) (g : Frame) :
    (read_primary_substation_csv csv label = .ok g →
      ("timestamp" ∈ g.header ∧
       (∀ cell ∈ g.getCol "timestamp", ∃ t, cell = Cell.dt t) ∧
       g.header.Sublist SubstationFlows.columns ∧
       ("MW" ∈ g.header ∨ "MVA" ∈ g.header))) ∧
    (process_live_primary_substation_flows csv = .ok g →
      ("timestamp" ∈ g.header ∧
       (∀ cell ∈ g.getCol "timestamp", ∃ t, cell = Cell.dt t) ∧
       g.header.Sublist SubstationFlows.columns ∧
       ("MW" ∈ g.header ∨ "MVA" ∈ g.header)) ∧
      (g.getCol "timestamp").Pairwise
        (fun c1 c2 => optIntLe (tsSortKey c1) (tsSortKey c2) = true)) :=
  ⟨fun h => read_primary_substation_csv_profile h,
   fun h => process_flows_profile h⟩

/-- C5 counterexample: `read_primary_substation_csv` preserves file order —
a wide-layout file with decreasing timestamps normalizes successfully to a
frame whose timestamps are *not* ascending. -/
theorem read_csv_output_not_sorted :
    read_primary_substation_csv
      { header := ["ValueDate", "MW Inst", "MVAr Inst", "Volts Inst"],
        rows := [[.str "2024-01-02 00:00:00", .num 5, .num 1, .num 11],
                 [.str "2024-01-01 00:00:00", .num 6, .num 2, .num 11]] }
      "Aberaeron" =
      .ok { header := ["substation_name", "timestamp", "MW", "MVAr"],
            rows := [[.str "Aberaeron", .dt 65053065600, .num 5, .num 1],
                     [.str "Aberaeron", .dt 65052979200, .num 6, .num 2]] } ∧
    optIntLe (tsSortKey (Cell.dt 65053065600)) (tsSortKey (Cell.dt 65052979200)) =
      false :=
  ⟨by rfl, by decide⟩

/-- C5 witness: the amended theorem applied to the concrete wide-layout
example. -/
theorem normalizer_output_profile_witness :
    "timestamp" ∈ wideExampleOut.header ∧
    (∀ cell ∈ wideExampleOut.getCol "timestamp", ∃ t, cell = Cell.dt t) ∧
    wideExampleOut.header.Sublist SubstationFlows.columns ∧
    ("MW" ∈ wideExampleOut.header ∨ "MVA" ∈ wideExampleOut.header) :=
  (normalizer_output_profile wideExampleCsv "Aberaeron" wideExampleOut).1 (by rfl)


/-! ## C9 — the two normalizers agree only up to the timestamp sort

The shared machinery below reduces both pipelines to one `mapM` of a
row-level function over the raw CSV rows and compares the two row functions
pointwise. -/

theorem mapM_ok_forall2 {α β : Type} {f : α → Except PErr β} :
    ∀ {rows : List α} {rows' : List β}, rows.mapM f = .ok rows' →
      List.Forall₂ (fun a b => f a = .ok b) rows rows' := by
  intro rows
  induction rows with
  | nil =>
    intro rows' h
    simp only [List.mapM_nil, pure, Except.pure] at h
    injection h with h
    subst h
    exact List.Forall₂.nil
  | cons a rest ih =>
    intro rows' h
    rw [List.mapM_cons] at h
    obtain ⟨b, hb, h⟩ := except_bind_ok h
    obtain ⟨bs, hbs, h⟩ := except_bind_ok h
    simp only [pure, Except.pure] at h
    injection h with h
    subst h
    exact List.Forall₂.cons hb (ih hbs)

theorem forall2_mapM_ok {α β : Type} {f : α → Except PErr β} :
    ∀ {rows : List α} {rows' : List β},
      List.Forall₂ (fun a b => f a = .ok b) rows rows' →
      rows.mapM f = .ok rows' := by
  intro rows
  induction rows with
  | nil =>
    intro rows' h
    cases h
    rfl
  | cons a rest ih =>
    intro rows' h
    cases h with
    | cons hb hrest =>
      rw [List.mapM_cons, hb]
      rw [ih hrest]
      rfl
end NGED
namespace NGED

theorem mapM_congr {α β : Type} {f g : α → Except PErr β} :
    ∀ {l : List α}, (∀ a ∈ l, f a = g a) → l.mapM f = l.mapM g := by
  intro l
  induction l with
  | nil => intro _; rfl
  | cons a rest ih =>
    intro h
    rw [List.mapM_cons, List.mapM_cons, h a (by simp),
      ih (fun x hx => h x (by simp [hx]))]

theorem mapM_ok_self {α : Type} :
    ∀ l : List α, l.mapM (fun a => (Except.ok a : Except PErr α)) = .ok l := by
  intro l
  induction l with
  | nil => rfl
  | cons a rest ih => rw [List.mapM_cons, ih]; rfl

theorem mapM_bind_ok {α β γ : Type} {f : α → Except PErr β}
    {g : β → Except PErr γ} :
    ∀ {xs : List α} {ys : List β} {zs : List γ},
      xs.mapM f = .ok ys → ys.mapM g = .ok zs →
      xs.mapM (fun a => f a >>= g) = .ok zs := by
  intro xs
  induction xs with
  | nil =>
    intro ys zs h1 h2
    simp only [List.mapM_nil, pure, Except.pure] at h1
    injection h1 with h1
    subst h1
    simp only [List.mapM_nil, pure, Except.pure] at h2
    injection h2 with h2
    subst h2
    rfl
  | cons a rest ih =>
    intro ys zs h1 h2
    rw [List.mapM_cons] at h1
    obtain ⟨b, hb, h1⟩ := except_bind_ok h1
    obtain ⟨bs, hbs, h1⟩ := except_bind_ok h1
    simp only [pure, Except.pure] at h1
    injection h1 with h1
    subst h1
    rw [List.mapM_cons] at h2
    obtain ⟨c, hc, h2⟩ := except_bind_ok h2
    obtain ⟨cs, hcs, h2⟩ := except_bind_ok h2
    simp only [pure, Except.pure] at h2
    injection h2 with h2
    subst h2
    rw [List.mapM_cons]
    show (f a >>= g) >>= _ = _
    rw [hb]
    show g b >>= _ = _
    rw [hc, ih hbs hcs]
    rfl

theorem castRowCols_nil (hdr : List String) (r : List Cell) :
    castRowCols hdr [] r = .ok r := rfl

theorem castRowCols_cons_col (hdr : List String) (c : String)
    (cols : List String) (r : List Cell) :
    castRowCols hdr (c :: cols) r =
      castRowOne hdr c r >>= castRowCols hdr cols := rfl

/-- `Frame.castCols` acts as one `mapM` of `castRowCols` over the rows. -/
theorem castCols_rows_ok : ∀ {cols : List String} {f g : Frame},
    f.castCols cols = .ok g →
    g.header = f.header ∧ f.rows.mapM (castRowCols f.header cols) = .ok g.rows := by
  intro cols
  induction cols with
  | nil =>
    intro f g h
    unfold Frame.castCols at h
    simp only [List.foldlM_nil, pure, Except.pure] at h
    injection h with h
    subst h
    exact ⟨rfl, mapM_ok_self f.rows⟩
  | cons c cols ih =>
    intro f g h
    unfold Frame.castCols at h
    rw [List.foldlM_cons] at h
    obtain ⟨f1, hf1, h⟩ := except_bind_ok h
    have hrest : f1.castCols cols = .ok g := h
    -- invert the single-column cast into row form
    unfold Frame.castCol at hf1
    rcases hci : f.colIdx c with _ | i
    · rw [hci] at hf1; simp at hf1
    · rw [hci] at hf1
      obtain ⟨rows1, hrows1, hf1⟩ := except_bind_ok hf1
      simp only [pure, Except.pure] at hf1
      injection hf1 with hf1
      subst hf1
      obtain ⟨hh, hm⟩ := ih hrest
      refine ⟨hh, ?_⟩
      have hone : f.rows.mapM (castRowOne f.header c) = .ok rows1 := by
        have hfe : castRowOne f.header c = (fun r =>
            match castCell (SubstationFlows.dtypeOf c) (r.getD i .null) with
            | some cell => pure (r.set i cell)
            | none => Except.error (PErr.castFail c)) := by
          funext r
          unfold castRowOne
          have hidx : f.header.indexOf? c = some i := hci
          rw [hidx]
          rfl
        rw [hfe]
        exact hrows1
      have := mapM_bind_ok hone hm
      rw [mapM_congr (g := fun r => castRowOne f.header c r >>=
        castRowCols f.header cols)]
      · exact this
      · intro r _
        exact castRowCols_cons_col f.header c cols r
theorem indexOf?_getElem : ∀ {l : List String} {a : String} {i : Nat},
    l.indexOf? a = some i → ∃ h : i < l.length, l[i] = a := by
  intro l
  induction l with
  | nil => intro a i h; simp [List.indexOf?_nil] at h
  | cons x xs ih =>
    intro a i h
    rw [List.indexOf?_cons] at h
    split at h
    · rename_i hx
      cases h
      exact ⟨by simp, by simpa using beq_iff_eq.mp hx⟩
    · rcases Option.map_eq_some'.mp h with ⟨k, hk, rfl⟩
      obtain ⟨hlt, hget⟩ := ih hk
      exact ⟨by simpa using Nat.succ_lt_succ hlt, by simpa using hget⟩

theorem indexOf?_mem {l : List String} {a : String} {i : Nat}
    (h : l.indexOf? a = some i) : a ∈ l := by
  obtain ⟨hlt, hget⟩ := indexOf?_getElem h
  exact hget ▸ List.getElem_mem hlt

theorem indexOf?_append_last {l : List String} {a : String} (h : a ∉ l) :
    (l ++ [a]).indexOf? a = some l.length := by
  induction l with
  | nil => simp [List.indexOf?_cons]
  | cons x xs ih =>
    rw [List.cons_append, List.indexOf?_cons]
    have hxa : (x == a) = false := by
      simp only [beq_eq_false_iff_ne]
      intro hx
      exact h (hx ▸ List.mem_cons_self x xs)
    rw [if_neg (by simp [hxa])]
    rw [ih (fun hm => h (List.mem_cons_of_mem x hm))]
    rfl

theorem indexOf?_of_mem {l : List String} {a : String} (h : a ∈ l) :
    ∃ i, l.indexOf? a = some i := by
  rcases hio : l.indexOf? a with _ | i
  · exact absurd (List.indexOf?_eq_none_iff.mp hio) (by simpa using h)
  · exact ⟨i, rfl⟩

theorem getD_set_self {l : List Cell} {k : Nat} {a : Cell} (hk : k < l.length) :
    (l.set k a).getD k .null = a := by
  rw [List.getD_eq_getElem _ _ (by simpa using hk)]
  exact List.getElem_set_self _

theorem getD_set_ne {l : List Cell} {k j : Nat} {a : Cell} (h : k ≠ j) :
    (l.set k a).getD j .null = l.getD j .null := by
  rw [List.getD_eq_getElem?_getD, List.getD_eq_getElem?_getD,
    List.getElem?_set_ne h]

theorem getD_append_last {r : List Cell} {x : Cell} :
    (r ++ [x]).getD r.length .null = x := by
  rw [List.getD_eq_getElem _ _ (by simp)]
  rw [List.getElem_append_right (Nat.le_refl _)]
  simp

theorem forall2_compose {α β γ : Type} {P : α → β → Prop} {Q : β → γ → Prop} :
    ∀ {xs : List α} {ys : List β} {zs : List γ},
      List.Forall₂ P xs ys → List.Forall₂ Q ys zs →
      List.Forall₂ (fun a c => ∃ b, P a b ∧ Q b c) xs zs := by
  intro xs
  induction xs with
  | nil =>
    intro ys zs h1 h2
    cases h1
    cases h2
    exact List.Forall₂.nil
  | cons a rest ih =>
    intro ys zs h1 h2
    cases h1 with
    | cons hb h1 =>
      cases h2 with
      | cons hc h2 =>
        exact List.Forall₂.cons ⟨_, hb, hc⟩ (ih h1 h2)

theorem forall2_pair {α β γ : Type} {P : α → β → Prop} {Q : α → γ → Prop} :
    ∀ {xs : List α} {ys : List β} {zs : List γ},
      List.Forall₂ P xs ys → List.Forall₂ Q xs zs →
      List.Forall₂ (fun b c => ∃ a, a ∈ xs ∧ P a b ∧ Q a c) ys zs := by
  intro xs
  induction xs with
  | nil =>
    intro ys zs h1 h2
    cases h1
    cases h2
    exact List.Forall₂.nil
  | cons a rest ih =>
    intro ys zs h1 h2
    cases h1 with
    | cons hb h1 =>
      cases h2 with
      | cons hc h2 =>
        refine List.Forall₂.cons ⟨a, by simp, hb, hc⟩ ?_
        exact (ih h1 h2).imp (fun b c ⟨x, hx, hP, hQ⟩ => ⟨x, by simp [hx], hP, hQ⟩)

theorem forall2_mem_right {α β : Type} {P : α → β → Prop} :
    ∀ {xs : List α} {ys : List β}, List.Forall₂ P xs ys →
      ∀ y ∈ ys, ∃ x ∈ xs, P x y := by
  intro xs
  induction xs with
  | nil =>
    intro ys h y hy
    cases h
    cases hy
  | cons a rest ih =>
    intro ys h y hy
    cases h with
    | cons hb h =>
      rcases List.mem_cons.mp hy with rfl | hy'
      · exact ⟨a, by simp, hb⟩
      · obtain ⟨x, hx, hP⟩ := ih h y hy'
        exact ⟨x, by simp [hx], hP⟩

theorem forall2_eq_map {α β : Type} {m : β → α} :
    ∀ {ys : List α} {zs : List β},
      List.Forall₂ (fun y z => y = m z) ys zs → ys = zs.map m := by
  intro ys
  induction ys with
  | nil => intro zs h; cases h; rfl
  | cons y rest ih =>
    intro zs h
    cases h with
    | cons hb h => rw [List.map_cons, ← hb, ih h]

theorem filterMap_zip_drop {x : String} :
    ∀ (cols : List String) (z : List Cell), cols.length = z.length →
      (∀ c ∈ cols, c ≠ x) →
      (cols.zip z).filterMap
        (fun p => if p.1 != x then some p.2 else none) = z := by
  intro cols
  induction cols with
  | nil =>
    intro z hlen _
    cases z
    · rfl
    · simp at hlen
  | cons c rest ih =>
    intro z hlen hne
    cases z with
    | nil => simp at hlen
    | cons a zt =>
      rw [List.zip_cons_cons, List.filterMap_cons]
      have hc : (c != x) = true := by
        simp only [bne_iff_ne, ne_eq]
        exact hne c (by simp)
      rw [if_pos hc]
      rw [ih zt (by simpa using hlen) (fun d hd => hne d (by simp [hd]))]
theorem castRowOne_none {hdr : List String} {c : String}
    (hio : hdr.indexOf? c = none) (r : List Cell) :
    castRowOne hdr c r = .error (.columnNotFound c) := by
  unfold castRowOne
  rw [hio]

theorem castRowOne_some {hdr : List String} {c : String} {i : Nat}
    (hio : hdr.indexOf? c = some i) (r : List Cell) :
    castRowOne hdr c r =
      (match castCell (SubstationFlows.dtypeOf c) (r.getD i .null) with
       | some cl => Except.ok (r.set i cl)
       | none => Except.error (PErr.castFail c)) := by
  unfold castRowOne
  rw [hio]

theorem castRowOne_lift {x c : String} (hdr : List String) (hne : c ≠ x)
    (cell : Cell) (r : List Cell) :
    castRowOne (x :: hdr) c (cell :: r) = (castRowOne hdr c r).map (cell :: ·) := by
  have hcons : (x :: hdr).indexOf? c =
      Option.map Nat.succ (hdr.indexOf? c) := by
    rw [List.indexOf?_cons,
      if_neg (by simp only [beq_iff_eq]; exact fun h => hne h.symm)]
  rcases hio : hdr.indexOf? c with _ | i
  · rw [castRowOne_none hio,
      castRowOne_none (by rw [hcons, hio]; rfl)]
    rfl
  · rw [castRowOne_some hio,
      castRowOne_some (i := i + 1) (by rw [hcons, hio]; rfl)]
    have hgd : (cell :: r).getD (i + 1) Cell.null = r.getD i Cell.null := rfl
    rw [hgd]
    rcases castCell (SubstationFlows.dtypeOf c) (r.getD i .null) with _ | cl
    · rfl
    · rfl

theorem castRowCols_lift {x : String} (hdr : List String) :
    ∀ (cols : List String), (∀ c ∈ cols, c ≠ x) → ∀ (cell : Cell) (r : List Cell),
    castRowCols (x :: hdr) cols (cell :: r) =
      (castRowCols hdr cols r).map (cell :: ·) := by
  intro cols
  induction cols with
  | nil => intro _ cell r; rfl
  | cons c rest ih =>
    intro hne cell r
    rw [castRowCols_cons_col, castRowCols_cons_col,
      castRowOne_lift hdr (hne c (by simp)) cell r]
    rcases hco : castRowOne hdr c r with e | r'
    · rfl
    · show castRowCols (x :: hdr) rest (cell :: r') = _
      rw [ih (fun d hd => hne d (by simp [hd])) cell r']
      rfl

theorem castRowOne_length {hdr : List String} {c : String} {r r' : List Cell}
    (h : castRowOne hdr c r = .ok r') : r'.length = r.length := by
  rcases hio : hdr.indexOf? c with _ | i
  · rw [castRowOne_none hio] at h
    cases h
  · rw [castRowOne_some hio] at h
    rcases hcc : castCell (SubstationFlows.dtypeOf c) (r.getD i .null) with _ | cl
    · rw [hcc] at h; cases h
    · rw [hcc] at h
      injection h with h
      rw [← h, List.length_set]

theorem castRowCols_length {hdr : List String} :
    ∀ {cols : List String} {r r' : List Cell},
    castRowCols hdr cols r = .ok r' → r'.length = r.length := by
  intro cols
  induction cols with
  | nil =>
    intro r r' h
    rw [castRowCols_nil] at h
    injection h with h
    rw [h]
  | cons c rest ih =>
    intro r r' h
    rw [castRowCols_cons_col] at h
    obtain ⟨r1, hr1, h⟩ := except_bind_ok h
    rw [ih h, castRowOne_length hr1]

theorem castRowCols_set_ts (hdr : List String) :
    ∀ (cols : List String) (k : Nat) (tc : Cell) (r : List Cell),
      k < r.length →
      "timestamp" ∈ cols →
      hdr.indexOf? "timestamp" = some k →
      (∀ c ∈ cols, ∀ j, hdr.indexOf? c = some j → j = k → c = "timestamp") →
      castCell .datetime tc = castCell .datetime (r.getD k .null) →
      castRowCols hdr cols (r.set k tc) = castRowCols hdr cols r := by
  intro cols
  induction cols with
  | nil => intro k tc r _ hts _ _ _; cases hts
  | cons c rest ih =>
    intro k tc r hk hts hkts hidx hcast
    rw [castRowCols_cons_col, castRowCols_cons_col]
    rcases hio : hdr.indexOf? c with _ | j
    · rw [castRowOne_none hio, castRowOne_none hio]
    · rw [castRowOne_some hio, castRowOne_some hio]
      by_cases hjk : j = k
      · have hcts : c = "timestamp" := hidx c (by simp) j hio hjk
        subst hcts
        subst hjk
        have hdty : SubstationFlows.dtypeOf "timestamp" = .datetime := rfl
        have hget : (r.set j tc).getD j .null = tc := getD_set_self hk
        rw [hdty, hget, hcast]
        rcases hcc : castCell .datetime (r.getD j .null) with _ | cl
        · rfl
        · show castRowCols hdr rest ((r.set j tc).set j cl) = _
          rw [List.set_set]
          rfl
      · rw [getD_set_ne (fun h => hjk h.symm)]
        rcases hcc : castCell (SubstationFlows.dtypeOf c) (r.getD j .null) with _ | cl
        · rfl
        · show castRowCols hdr rest ((r.set k tc).set j cl) = castRowCols hdr rest (r.set j cl)
          rw [List.set_comm _ _ _ (fun h => hjk h.symm)]
          have hts' : "timestamp" ∈ rest := by
            rcases List.mem_cons.mp hts with rfl | h
            · rw [hio] at hkts
              injection hkts with hkts
              exact absurd hkts hjk
            · exact h
          refine ih k tc (r.set j cl) (by simpa using hk) hts' hkts
            (fun d hd => hidx d (by simp [hd])) ?_
          rw [getD_set_ne hjk]
          exact hcast
theorem rename_ok {f : Frame} {tbl : List (String × String)} {g : Frame}
    (h : f.rename tbl = .ok g) :
    g = { f with header := f.header.map (renameMap tbl) } := by
  have h' : (if (f.header.map (renameMap tbl)).Nodup then
      (Except.ok { header := f.header.map (renameMap tbl), rows := f.rows } :
        Except PErr Frame)
      else .error .duplicateColumn) = .ok g := h
  split at h'
  · injection h' with h'
    exact h'.symm
  · cases h' 

theorem castCell_datetime_idem {cell tc : Cell}
    (h : castCell .datetime cell = some tc) : castCell .datetime tc = some tc := by
  cases cell with
  | str s =>
    have h2 : Option.map Cell.dt (parseTimestamp s) = some tc := h
    rcases Option.map_eq_some'.mp h2 with ⟨t, _, rfl⟩
    rfl
  | num q => cases h
  | dt t =>
    have h2 : some (Cell.dt t) = some tc := h
    injection h2 with h2
    rw [← h2]
    rfl
  | null =>
    have h2 : some Cell.null = some tc := h
    injection h2 with h2
    rw [← h2]
    rfl

theorem withColumnLit_absent {f : Frame} {name : String} {cell : Cell}
    (h : name ∉ f.header) :
    f.withColumnLit name cell =
      ⟨f.header ++ [name], f.rows.map (fun r => r ++ [cell])⟩ := by
  unfold Frame.withColumnLit Frame.colIdx
  have hnone : f.header.indexOf? name = none := by
    rw [List.indexOf?_eq_none_iff]
    intro x hx he
    exact h (beq_iff_eq.mp he ▸ hx)
  rw [hnone]

theorem hasCol_extend {hdr : List String} {rows rows' : List (List Cell)}
    {x c : String} (hne : c ≠ x) :
    Frame.hasCol ⟨hdr ++ [x], rows'⟩ c = Frame.hasCol ⟨hdr, rows⟩ c := by
  rcases hb : Frame.hasCol (⟨hdr, rows⟩ : Frame) c with _ | _
  · have hnm : c ∉ hdr := by
      intro hm
      exact absurd ((hasCol_iff_mem (f := ⟨hdr, rows⟩)).mpr hm) (by rw [hb]; simp)
    rw [hasCol_eq_false_iff]
    show (hdr ++ [x]).indexOf? c = none
    rw [List.indexOf?_eq_none_iff]
    intro y hy he
    have he' : y = c := beq_iff_eq.mp he
    subst he'
    rcases List.mem_append.mp hy with hm | hm
    · exact hnm hm
    · exact hne (by simpa using hm)
  · rw [hasCol_iff_mem]
    exact List.mem_append_left _ ((hasCol_iff_mem (f := ⟨hdr, rows⟩)).mp hb)

theorem getCol_extend {hdr : List String} {rows : List (List Cell)}
    {x : String} {cell : Cell} {c : String} (hne : c ≠ x)
    (hrect : ∀ r ∈ rows, r.length = hdr.length) :
    Frame.getCol ⟨hdr ++ [x], rows.map (fun r => r ++ [cell])⟩ c =
      Frame.getCol ⟨hdr, rows⟩ c := by
  unfold Frame.getCol Frame.colIdx
  dsimp only
  rcases hio : hdr.indexOf? c with _ | i
  · have hext : (hdr ++ [x]).indexOf? c = none := by
      rw [List.indexOf?_eq_none_iff]
      intro y hy he
      have he' : y = c := beq_iff_eq.mp he
      subst he'
      rcases List.mem_append.mp hy with hm | hm
      · exact List.indexOf?_eq_none_iff.mp hio y hm (beq_self_eq_true y)
      · exact hne (by simpa using hm)
    rw [hext]
  · rw [indexOf?_append_left hio]
    show (rows.map (fun r => r ++ [cell])).map (fun r => r.getD i Cell.null) =
      rows.map (fun r => r.getD i Cell.null)
    rw [List.map_map]
    refine List.map_congr_left ?_
    intro r hr
    show (r ++ [cell]).getD i Cell.null = r.getD i Cell.null
    exact getD_append_left ((hrect r hr) ▸ indexOf?_lt_length hio)

theorem renameMap_not_key : ∀ {tbl : List (String × String)} {h : String},
    (∀ p ∈ tbl, p.1 ≠ h) → renameMap tbl h = h := by
  intro tbl
  induction tbl with
  | nil => intro h _; rfl
  | cons p t ih =>
    intro h hnk
    obtain ⟨k, v⟩ := p
    have hk : (h == k) = false := by
      simp only [beq_eq_false_iff_ne, ne_eq]
      exact fun he => hnk (k, v) (by simp) he.symm
    unfold renameMap
    rw [List.lookup_cons, hk]
    exact ih (fun q hq => hnk q (by simp [hq]))

theorem renameMap_snd_or_self : ∀ (tbl : List (String × String)) (y : String),
    renameMap tbl y ∈ tbl.map Prod.snd ∨ renameMap tbl y = y := by
  intro tbl
  induction tbl with
  | nil => intro y; right; rfl
  | cons p t ih =>
    intro y
    obtain ⟨k, v⟩ := p
    unfold renameMap
    rw [List.lookup_cons]
    rcases hk : (y == k) with _ | _
    · rcases ih y with hm | hs
      · left
        rw [List.map_cons]
        exact List.mem_cons_of_mem _ (by unfold renameMap at hm; exact hm)
      · right
        unfold renameMap at hs
        exact hs
    · left
      simp

theorem renameMap_ne_sn {tbl : List (String × String)}
    (hv : ∀ p ∈ tbl, p.2 ≠ "substation_name") {y : String}
    (hy : y ≠ "substation_name") : renameMap tbl y ≠ "substation_name" := by
  rcases renameMap_snd_or_self tbl y with hm | hs
  · rcases List.mem_map.mp hm with ⟨p, hp, heq⟩
    exact heq ▸ hv p hp
  · rw [hs]
    exact hy
theorem comp_agree_plain (h : String) (h1 : h ≠ "Timestamp") (h2 : h ≠ "time") :
    renameMap renameTableRead h = renameMap renameTableProc h := by
  by_cases hvd : h = "ValueDate"
  · subst hvd; rfl
  by_cases hmwi : h = "MW Inst"
  · subst hmwi; rfl
  by_cases hmvri : h = "MVAr Inst"
  · subst hmvri; rfl
  by_cases hdm : h = "Derived MVA"
  · subst hdm; rfl
  have hkP : ∀ p ∈ renameTableProc, p.1 ≠ h := by
    intro p hp
    simp only [renameTableProc, List.mem_cons, List.not_mem_nil, or_false] at hp
    rcases hp with rfl | rfl | rfl | rfl | rfl | rfl
    · exact fun he => h2 he.symm
    · exact fun he => hvd he.symm
    · exact fun he => h1 he.symm
    · exact fun he => hmwi he.symm
    · exact fun he => hmvri he.symm
    · exact fun he => hdm he.symm
  have hkR : ∀ p ∈ renameTableRead, p.1 ≠ h := by
    intro p hp
    simp only [renameTableRead, List.mem_cons, List.not_mem_nil, or_false] at hp
    rcases hp with rfl | rfl | rfl | rfl
    · exact fun he => hvd he.symm
    · exact fun he => hmwi he.symm
    · exact fun he => hmvri he.symm
    · exact fun he => hdm he.symm
  rw [renameMap_not_key hkR, renameMap_not_key hkP]

theorem comp_agree_mva (h : String) (h1 : h ≠ "Timestamp") :
    renameMap renameTableRead (renameMap [("time", "timestamp"), ("value", "MVA")] h) =
    renameMap renameTableProc (renameMap [("value", "MVA")] h) := by
  by_cases htm : h = "time"
  · subst htm; rfl
  by_cases hvl : h = "value"
  · subst hvl; rfl
  by_cases hvd : h = "ValueDate"
  · subst hvd; rfl
  by_cases hmwi : h = "MW Inst"
  · subst hmwi; rfl
  by_cases hmvri : h = "MVAr Inst"
  · subst hmvri; rfl
  by_cases hdm : h = "Derived MVA"
  · subst hdm; rfl
  have hkP : ∀ p ∈ [("value", "MVA")], p.1 ≠ h := by
    intro p hp
    simp only [List.mem_cons, List.not_mem_nil, or_false] at hp
    rcases hp with rfl
    exact fun he => hvl he.symm
  have hkR : ∀ p ∈ [("time", "timestamp"), ("value", "MVA")], p.1 ≠ h := by
    intro p hp
    simp only [List.mem_cons, List.not_mem_nil, or_false] at hp
    rcases hp with rfl | rfl
    · exact fun he => htm he.symm
    · exact fun he => hvl he.symm
  rw [renameMap_not_key hkR, renameMap_not_key hkP]
  exact comp_agree_plain h h1 htm

theorem comp_agree_mw (h : String) (h1 : h ≠ "Timestamp") :
    renameMap renameTableRead (renameMap [("time", "timestamp"), ("value", "MW")] h) =
    renameMap renameTableProc (renameMap [("value", "MW")] h) := by
  by_cases htm : h = "time"
  · subst htm; rfl
  by_cases hvl : h = "value"
  · subst hvl; rfl
  by_cases hvd : h = "ValueDate"
  · subst hvd; rfl
  by_cases hmwi : h = "MW Inst"
  · subst hmwi; rfl
  by_cases hmvri : h = "MVAr Inst"
  · subst hmvri; rfl
  by_cases hdm : h = "Derived MVA"
  · subst hdm; rfl
  have hkP : ∀ p ∈ [("value", "MW")], p.1 ≠ h := by
    intro p hp
    simp only [List.mem_cons, List.not_mem_nil, or_false] at hp
    rcases hp with rfl
    exact fun he => hvl he.symm
  have hkR : ∀ p ∈ [("time", "timestamp"), ("value", "MW")], p.1 ≠ h := by
    intro p hp
    simp only [List.mem_cons, List.not_mem_nil, or_false] at hp
    rcases hp with rfl | rfl
    · exact fun he => htm he.symm
    · exact fun he => hvl he.symm
  rw [renameMap_not_key hkR, renameMap_not_key hkP]
  exact comp_agree_plain h h1 htm
theorem core_row (hdrP colsP : List String) (r : List Cell) (lbl : String)
    (tc : Cell) (iR k : Nat)
    (hlen : r.length = hdrP.length)
    (hiR : hdrP.indexOf? "timestamp" = some iR)
    (hk : colsP.indexOf? "timestamp" = some k)
    (hnd : colsP.Nodup)
    (hsnP : "substation_name" ∉ hdrP)
    (hsub : ∀ c ∈ colsP, c ≠ "substation_name")
    (hmemP : ∀ c ∈ colsP, c ∈ hdrP)
    (htc : castCell .datetime (r.getD iR .null) = some tc) :
    castRowCols ("substation_name" :: colsP) ("substation_name" :: colsP)
        (("substation_name" :: colsP).map (fun c =>
          match (hdrP ++ ["substation_name"]).indexOf? c with
          | some i => ((r ++ [Cell.str lbl]).set iR tc).getD i Cell.null
          | none => Cell.null)) =
      (castRowCols colsP colsP (colsP.map (fun c =>
          match hdrP.indexOf? c with
          | some i => r.getD i Cell.null
          | none => Cell.null))).map (fun z => Cell.str lbl :: z) := by
  have hiRlt : iR < hdrP.length := indexOf?_lt_length hiR
  have hklt : k < colsP.length := indexOf?_lt_length hk
  obtain ⟨hiRlt', hiRget⟩ := indexOf?_getElem hiR
  obtain ⟨hklt', hkget⟩ := indexOf?_getElem hk
  -- the proc-side selected row
  set tailP : List Cell := colsP.map (fun c =>
      match hdrP.indexOf? c with
      | some i => r.getD i Cell.null
      | none => Cell.null) with htailP
  -- Step A: the read-side selected row is `str lbl :: tailP.set k tc`
  have hhead : (match (hdrP ++ ["substation_name"]).indexOf? "substation_name" with
      | some i => ((r ++ [Cell.str lbl]).set iR tc).getD i Cell.null
      | none => Cell.null) = Cell.str lbl := by
    rw [indexOf?_append_last hsnP]
    show ((r ++ [Cell.str lbl]).set iR tc).getD hdrP.length Cell.null = Cell.str lbl
    rw [getD_set_ne (Nat.ne_of_lt hiRlt), ← hlen, getD_append_last]
  have htail : colsP.map (fun c =>
      match (hdrP ++ ["substation_name"]).indexOf? c with
      | some i => ((r ++ [Cell.str lbl]).set iR tc).getD i Cell.null
      | none => Cell.null) = tailP.set k tc := by
    refine List.ext_getElem (by simp [htailP]) ?_
    intro j h1 h2
    rw [List.getElem_map]
    have hjlt : j < colsP.length := by simpa using h1
    obtain ⟨jc, hjc⟩ := indexOf?_of_mem (hmemP colsP[j] (List.getElem_mem hjlt))
    rw [indexOf?_append_left hjc]
    show ((r ++ [Cell.str lbl]).set iR tc).getD jc Cell.null = _
    rw [List.getElem_set]
    by_cases hkj : k = j
    · rw [if_pos hkj]
      subst hkj
      have hcts : colsP[k] = "timestamp" := hkget
      rw [hcts] at hjc
      have hjciR : jc = iR := by
        rw [hiR] at hjc
        injection hjc with hjc
        exact hjc.symm
      subst hjciR
      refine getD_set_self ?_
      rw [List.length_append, hlen]
      simp only [List.length_cons, List.length_nil]
      omega
    · rw [if_neg hkj]
      have hcne : colsP[j] ≠ "timestamp" := by
        intro hts
        exact hkj ((hnd.getElem_inj_iff).mp (hkget.trans hts.symm))
      have hjcne : jc ≠ iR := by
        intro he
        obtain ⟨hjclt, hjcget⟩ := indexOf?_getElem hjc
        apply hcne
        rw [← hjcget]
        subst he
        exact hiRget
      rw [getD_set_ne (fun he => hjcne he.symm),
        getD_append_left (by rw [hlen]; exact indexOf?_lt_length hjc)]
      simp only [htailP, List.getElem_map, hjc]
  -- assemble the selected read row
  rw [List.map_cons, hhead, htail]
  -- Step B: peel the substation_name cast
  have hio0 : ("substation_name" :: colsP).indexOf? "substation_name" = some 0 := by
    rw [List.indexOf?_cons, if_pos (beq_self_eq_true _)]
  rw [castRowCols_cons_col]
  have hstep : castRowOne ("substation_name" :: colsP) "substation_name"
      (Cell.str lbl :: tailP.set k tc) = .ok (Cell.str lbl :: tailP.set k tc) := by
    rw [castRowOne_some hio0]
    rfl
  rw [hstep]
  show castRowCols ("substation_name" :: colsP) colsP (Cell.str lbl :: tailP.set k tc) = _
  rw [castRowCols_lift colsP colsP hsub (Cell.str lbl) (tailP.set k tc)]
  -- Step C: absorb the pre-parsed timestamp into the datetime cast
  have hC : castRowCols colsP colsP (tailP.set k tc) = castRowCols colsP colsP tailP := by
    refine castRowCols_set_ts colsP colsP k tc tailP
      (by rw [htailP]; simpa using hklt) (indexOf?_mem hk) hk ?_ ?_
    · intro c hc j hj hjk
      subst hjk
      obtain ⟨hjlt, hjget⟩ := indexOf?_getElem hj
      rw [← hjget, hkget]
    · have hgd : tailP.getD k Cell.null = r.getD iR Cell.null := by
        rw [htailP, List.getD_eq_getElem _ _ (by simpa using hklt),
          List.getElem_map, hkget, hiR]
      rw [hgd, htc]
      exact castCell_datetime_idem htc
  rw [hC]
theorem toDatetime_row_ok {i : Nat} {r1 r4 : List Cell}
    (h : (do
        let c ← match r1.getD i Cell.null with
          | Cell.str s =>
            match parseTimestamp s with
            | some t => pure (Cell.dt t)
            | none => Except.error (PErr.timestampParse s)
          | Cell.null => pure Cell.null
          | _ => Except.error (PErr.castFail "timestamp")
        pure (r1.set i c)) = Except.ok r4) :
    ∃ tc, castCell .datetime (r1.getD i Cell.null) = some tc ∧ r4 = r1.set i tc := by
  rcases hcell : r1.getD i Cell.null with s | q | t | _
  · rw [hcell] at h
    have h2 : (do
        let c ← match parseTimestamp s with
          | some t => pure (Cell.dt t)
          | none => Except.error (PErr.timestampParse s)
        pure (r1.set i c) : Except PErr (List Cell)) = .ok r4 := h
    rcases hp : parseTimestamp s with _ | t
    · rw [hp] at h2
      have h' : (Except.error (PErr.timestampParse s) : Except PErr (List Cell)) =
          .ok r4 := h2
      cases h'
    · rw [hp] at h2
      have h' : (Except.ok (r1.set i (Cell.dt t)) : Except PErr (List Cell)) =
          .ok r4 := h2
      injection h' with h'
      refine ⟨Cell.dt t, ?_, h'.symm⟩
      show Option.map Cell.dt (parseTimestamp s) = some (Cell.dt t)
      rw [hp]
      rfl
  · rw [hcell] at h
    have h' : (Except.error (PErr.castFail "timestamp") : Except PErr (List Cell)) =
        .ok r4 := h
    cases h'
  · rw [hcell] at h
    have h' : (Except.error (PErr.castFail "timestamp") : Except PErr (List Cell)) =
        .ok r4 := h
    cases h'
  · rw [hcell] at h
    have h' : (Except.ok (r1.set i Cell.null) : Except PErr (List Cell)) = .ok r4 := h
    injection h' with h'
    exact ⟨Cell.null, rfl, h'.symm⟩
theorem tail_pipeline (hdrP : List String) (rows0 : List (List Cell)) (lbl : String)
    (hrect : ∀ r ∈ rows0, r.length = hdrP.length)
    (hsn : "substation_name" ∉ hdrP)
    {f4 fR g6 : Frame}
    (hdt : toDatetimeUTC ⟨hdrP ++ ["substation_name"],
        rows0.map (fun r => r ++ [Cell.str lbl])⟩ = .ok f4)
    (hcastR : (f4.select (SubstationFlows.columns.filter f4.hasCol)).castCols
        (SubstationFlows.columns.filter f4.hasCol) = .ok fR)
    (hcastP : ((⟨hdrP, rows0⟩ : Frame).select
          (SubstationFlows.columns.filter (Frame.hasCol ⟨hdrP, rows0⟩))).castCols
        (SubstationFlows.columns.filter (Frame.hasCol ⟨hdrP, rows0⟩)) = .ok g6) :
    fR.dropCol "substation_name" = g6 := by
  unfold toDatetimeUTC at hdt
  rcases hio : (hdrP ++ ["substation_name"]).indexOf? "timestamp" with _ | iR
  · have hio' : Frame.colIdx ⟨hdrP ++ ["substation_name"],
        rows0.map (fun r => r ++ [Cell.str lbl])⟩ "timestamp" = none := hio
    rw [hio'] at hdt
    cases hdt
  · have hio' : Frame.colIdx ⟨hdrP ++ ["substation_name"],
        rows0.map (fun r => r ++ [Cell.str lbl])⟩ "timestamp" = some iR := hio
    rw [hio'] at hdt
    obtain ⟨rows4, hrows4, hdt⟩ := except_bind_ok hdt
    simp only [pure, Except.pure] at hdt
    injection hdt with hdt
    subst hdt
    -- the timestamp source column sits inside hdrP
    have hiR : hdrP.indexOf? "timestamp" = some iR := by
      have hmem := indexOf?_mem hio
      rcases List.mem_append.mp hmem with hm | hm
      · obtain ⟨i', hi'⟩ := indexOf?_of_mem hm
        rw [indexOf?_append_left hi'] at hio
        injection hio with he
        rw [hi', he]
      · exact absurd (show "timestamp" = "substation_name" by simpa using hm)
          (by decide)
    have hiRlt : iR < hdrP.length := indexOf?_lt_length hiR
    -- column set bookkeeping
    have hpPsn : Frame.hasCol ⟨hdrP, rows0⟩ "substation_name" = false := by
      rcases hb : Frame.hasCol ⟨hdrP, rows0⟩ "substation_name" with _ | _
      · rfl
      · exact absurd (hasCol_iff_mem.mp hb) hsn
    have hR4sn : Frame.hasCol ⟨hdrP ++ ["substation_name"], rows4⟩
        "substation_name" = true := by
      rw [hasCol_iff_mem]
      exact List.mem_append_right _ (by simp)
    have h4ne : ∀ c ∈ ["timestamp", "MW", "MVA", "MVAr"],
        c ≠ "substation_name" := by decide
    have hcolsP_eq : SubstationFlows.columns.filter (Frame.hasCol ⟨hdrP, rows0⟩) =
        ["timestamp", "MW", "MVA", "MVAr"].filter (Frame.hasCol ⟨hdrP, rows0⟩) := by
      unfold SubstationFlows.columns
      rw [List.filter_cons, hpPsn]
      simp only [Bool.false_eq_true, if_false]
    have hcolsR_eq : SubstationFlows.columns.filter
        (Frame.hasCol ⟨hdrP ++ ["substation_name"], rows4⟩) =
        "substation_name" ::
          ["timestamp", "MW", "MVA", "MVAr"].filter (Frame.hasCol ⟨hdrP, rows0⟩) := by
      unfold SubstationFlows.columns
      rw [List.filter_cons, hR4sn, if_pos rfl]
      congr 1
      refine List.filter_congr ?_
      intro c hc
      exact hasCol_extend (h4ne c hc)
    set colsP := ["timestamp", "MW", "MVA", "MVAr"].filter
      (Frame.hasCol ⟨hdrP, rows0⟩) with hcolsP
    have hsubP : ∀ c ∈ colsP, c ∈ ["timestamp", "MW", "MVA", "MVAr"] :=
      fun c hc => List.mem_of_mem_filter hc
    have hsub_sn : ∀ c ∈ colsP, c ≠ "substation_name" :=
      fun c hc => h4ne c (hsubP c hc)
    have hndP : colsP.Nodup := List.Nodup.filter _ (by decide)
    have hmemP : ∀ c ∈ colsP, c ∈ hdrP := by
      intro c hc
      exact hasCol_iff_mem.mp (List.of_mem_filter hc)
    have htsP : "timestamp" ∈ colsP := by
      rw [hcolsP]
      refine List.mem_filter.mpr ⟨by decide, ?_⟩
      exact hasCol_iff_mem.mpr (indexOf?_mem hiR)
    obtain ⟨k, hkP⟩ := indexOf?_of_mem htsP
    rw [hcolsR_eq] at hcastR
    rw [hcolsP_eq] at hcastP
    -- row-level Forall₂ for the read side
    obtain ⟨hfRhdr, hfRrows⟩ := castCols_rows_ok hcastR
    obtain ⟨hg6hdr, hg6rows⟩ := castCols_rows_ok hcastP
    have hfR2 : List.Forall₂ (fun r4 rf =>
        castRowCols ("substation_name" :: colsP) ("substation_name" :: colsP)
          (("substation_name" :: colsP).map (fun c =>
            match (hdrP ++ ["substation_name"]).indexOf? c with
            | some i => r4.getD i Cell.null
            | none => Cell.null)) = Except.ok rf) rows4 fR.rows :=
      List.forall₂_map_left_iff.mp (mapM_ok_forall2 hfRrows)
    have hg62 : List.Forall₂ (fun r rp =>
        castRowCols colsP colsP
          (colsP.map (fun c =>
            match hdrP.indexOf? c with
            | some i => r.getD i Cell.null
            | none => Cell.null)) = Except.ok rp) rows0 g6.rows :=
      List.forall₂_map_left_iff.mp (mapM_ok_forall2 hg6rows)
    have hparse2 : List.Forall₂ (fun r r4 => (do
        let c ← match (r ++ [Cell.str lbl]).getD iR Cell.null with
          | Cell.str s =>
            match parseTimestamp s with
            | some t => pure (Cell.dt t)
            | none => Except.error (PErr.timestampParse s)
          | Cell.null => pure Cell.null
          | _ => Except.error (PErr.castFail "timestamp")
        pure ((r ++ [Cell.str lbl]).set iR c)) = Except.ok r4) rows0 rows4 :=
      List.forall₂_map_left_iff.mp (mapM_ok_forall2 hrows4)
    have hcomp := forall2_compose hparse2 hfR2
    have hpair := forall2_pair hcomp hg62
    -- pointwise: each read row is the labelled proc row
    have hpoint : List.Forall₂ (fun rf rp => rf = Cell.str lbl :: rp)
        fR.rows g6.rows := by
      refine hpair.imp ?_
      rintro rf rp ⟨r, hr, ⟨r4, hpr, hcr⟩, hpp⟩
      obtain ⟨tc, htc0, hr4⟩ := toDatetime_row_ok hpr
      have hrl : r.length = hdrP.length := hrect r hr
      have htc : castCell .datetime (r.getD iR Cell.null) = some tc := by
        rw [← getD_append_left (x := Cell.str lbl) (by rw [hrl]; exact hiRlt)]
        exact htc0
      subst hr4
      have hcore := core_row hdrP colsP r lbl tc iR k hrl hiR hkP hndP hsn
        hsub_sn hmemP htc
      rw [hcore, hpp] at hcr
      have hcr' : (Except.ok (Cell.str lbl :: rp) : Except PErr (List Cell)) =
          .ok rf := hcr
      injection hcr' with hcr'
      exact hcr'.symm
    have hrowsEq : fR.rows = g6.rows.map (fun z => Cell.str lbl :: z) :=
      forall2_eq_map hpoint
    have hlenP : ∀ z ∈ g6.rows, z.length = colsP.length := by
      intro z hz
      obtain ⟨r, hr, hpp⟩ := forall2_mem_right hg62 z hz
      rw [castRowCols_length hpp]
      exact List.length_map _ _
    -- compute the dropCol and close
    obtain ⟨fRh, fRr⟩ := fR
    obtain ⟨g6h, g6r⟩ := g6
    have hfRh : fRh = "substation_name" :: colsP := hfRhdr
    have hg6h : g6h = colsP := hg6hdr
    subst hfRh
    subst hg6h
    show Frame.dropCol ⟨"substation_name" :: colsP, fRr⟩ "substation_name" =
      ⟨colsP, g6r⟩
    unfold Frame.dropCol
    refine congrArg₂ Frame.mk ?_ ?_
    · show ("substation_name" :: colsP).filter (· != "substation_name") = colsP
      rw [List.filter_cons]
      rw [if_neg (by decide)]
      refine List.filter_eq_self.mpr ?_
      intro c hc
      exact bne_iff_ne.mpr (hsub_sn c hc)
    · show fRr.map _ = g6r
      have hfRr : fRr = g6r.map (fun z => Cell.str lbl :: z) := hrowsEq
      subst hfRr
      rw [List.map_map]
      have hid : ∀ z ∈ g6r, ((("substation_name" :: colsP).zip (Cell.str lbl :: z)).filterMap
          (fun p => if p.1 != "substation_name" then some p.2 else none)) = z := by
        intro z hz
        rw [List.zip_cons_cons, List.filterMap_cons]
        have hhead : (if (("substation_name" : String) != "substation_name") = true
            then some (Cell.str lbl) else none) = (none : Option Cell) := rfl
        rw [hhead]
        exact filterMap_zip_drop colsP z (hlenP z hz).symm hsub_sn
      calc g6r.map _ = g6r.map id := List.map_congr_left (fun z hz => hid z hz)
        _ = g6r := List.map_id g6r
theorem header_build {hdr0 : List String} {compR compP : String → String}
    (hagree : ∀ h ∈ hdr0, compR h = compP h)
    (hsnc : compR "substation_name" = "substation_name") :
    (hdr0 ++ ["substation_name"]).map compR =
      hdr0.map compP ++ ["substation_name"] := by
  rw [List.map_append, List.map_congr_left hagree]
  simp [hsnc]

theorem map_not_sn {hdr0 : List String} {compP : String → String}
    (himg : ∀ h ∈ hdr0, compP h ≠ "substation_name") :
    "substation_name" ∉ hdr0.map compP := by
  intro hmem
  rcases List.mem_map.mp hmem with ⟨h, hh, he⟩
  exact himg h hh he

/-- C9: the claim as written (same records *in the same row order* after
dropping `substation_name`) is false, because only
`process_live_primary_substation_flows` sorts by timestamp (see
`normalizers_differ_in_row_order`).  Amended equivalence: for a rectangular
CSV that does not already carry a `substation_name` or `Timestamp` column,
and whose `time` column (if any) comes with the long-format `unit`/`value`
pair, whenever both normalizers accept the input, dropping the
`substation_name` column from `read_primary_substation_csv`'s output and
sorting by timestamp yields exactly
`process_live_primary_substation_flows`' output. -/
theorem normalizers_agree_after_sort (csv : Frame) (label : String)
    {f g : Frame}
    (hrect : csv.Rect)
    (hname : "substation_name" ∉ csv.header)
    (hTs : "Timestamp" ∉ csv.header)
    (htime : "time" ∈ csv.header →
      "unit" ∈ csv.header ∧ "value" ∈ csv.header)
    (hr : read_primary_substation_csv csv label = .ok f)
    (hp : process_live_primary_substation_flows csv = .ok g) :
    (f.dropCol "substation_name").sortTs = .ok g := by
  have hrect' : ∀ r ∈ csv.rows, r.length = csv.header.length := hrect
  -- unfold both pipelines into their stages
  unfold read_primary_substation_csv at hr
  rw [withColumnLit_absent hname] at hr
  obtain ⟨f2, hbr, hr⟩ := except_bind_ok hr
  obtain ⟨f3, hrn, hr⟩ := except_bind_ok hr
  obtain ⟨f4, hdt, hr⟩ := except_bind_ok hr
  obtain ⟨f6, hcast, hr⟩ := except_bind_ok hr
  have hf : f = f6 := validate_ok_id (mapError_ok hr)
  subst hf
  unfold process_live_primary_substation_flows at hp
  obtain ⟨g2, hbp, hp⟩ := except_bind_ok hp
  obtain ⟨g3, hrnp, hp⟩ := except_bind_ok hp
  obtain ⟨g6, hcastP, hp⟩ := except_bind_ok hp
  obtain ⟨gs, hsort, hp⟩ := except_bind_ok hp
  have hg : g = gs := validate_ok_id (mapError_ok hp)
  subst hg
  -- the unit-branch condition and unit tests agree between the two pipelines
  have hcu : Frame.hasCol ⟨csv.header ++ ["substation_name"],
      csv.rows.map (fun r => r ++ [Cell.str label])⟩ "unit" =
      csv.hasCol "unit" := hasCol_extend (by decide)
  have hcv : Frame.hasCol ⟨csv.header ++ ["substation_name"],
      csv.rows.map (fun r => r ++ [Cell.str label])⟩ "value" =
      csv.hasCol "value" := hasCol_extend (by decide)
  have hgu : Frame.getCol ⟨csv.header ++ ["substation_name"],
      csv.rows.map (fun r => r ++ [Cell.str label])⟩ "unit" =
      csv.getCol "unit" := getCol_extend (by decide) hrect'
  have hau : ∀ u, Frame.allUnitsEq ⟨csv.header ++ ["substation_name"],
      csv.rows.map (fun r => r ++ [Cell.str label])⟩ u = csv.allUnitsEq u := by
    intro u
    unfold Frame.allUnitsEq
    rw [hgu]
  unfold unitBranchRead at hbr
  unfold unitBranchProc at hbp
  rw [hcu, hcv, hau "MVA", hau "MW"] at hbr
  rcases hcond : csv.hasCol "unit" && csv.hasCol "value" with _ | _
  · -- no long-format branch: both pipelines keep their frame
    rw [hcond] at hbr hbp
    simp only [Bool.false_eq_true, if_false] at hbr hbp
    injection hbr with hbr
    injection hbp with hbp
    subst hbr
    subst hbp
    have htm : ∀ h ∈ csv.header, h ≠ "time" := by
      intro h hh he
      subst he
      obtain ⟨hu, hv⟩ := htime hh
      rw [hasCol_iff_mem.mpr hu, hasCol_iff_mem.mpr hv] at hcond
      cases hcond
    have hagree : ∀ h ∈ csv.header,
        renameMap renameTableRead h = renameMap renameTableProc h := by
      intro h hh
      exact comp_agree_plain h (fun he => hTs (he ▸ hh)) (htm h hh)
    have hf3 : f3 = ⟨csv.header.map (renameMap renameTableProc) ++
        ["substation_name"], csv.rows.map (fun r => r ++ [Cell.str label])⟩ := by
      rw [rename_ok hrn]
      show Frame.mk ((csv.header ++ ["substation_name"]).map
        (renameMap renameTableRead)) (csv.rows.map (fun r => r ++ [Cell.str label])) = _
      exact congrArg (fun h => Frame.mk h _) (header_build hagree rfl)
    have hg3 : g3 = ⟨csv.header.map (renameMap renameTableProc), csv.rows⟩ := by
      rw [rename_ok hrnp]
    rw [hf3] at hdt
    rw [hg3] at hcastP
    have hsnP : "substation_name" ∉ csv.header.map (renameMap renameTableProc) :=
      map_not_sn (fun h hh =>
        renameMap_ne_sn (by decide) (fun he => hname (he ▸ hh)))
    have hrect2 : ∀ r ∈ csv.rows,
        r.length = (csv.header.map (renameMap renameTableProc)).length := by
      intro r hrr
      rw [List.length_map]
      exact hrect' r hrr
    have hdrop := tail_pipeline _ csv.rows label hrect2 hsnP hdt hcast hcastP
    rw [hdrop]
    exact hsort
  · -- long-format branch taken: split on the constant unit
    rw [hcond] at hbr hbp
    simp only [eq_self_iff_true, if_true] at hbr hbp
    rcases hmva : csv.allUnitsEq "MVA" with _ | _
    · rw [hmva] at hbr hbp
      simp only [Bool.false_eq_true, if_false] at hbr hbp
      rcases hmw : csv.allUnitsEq "MW" with _ | _
      · rw [hmw] at hbr hbp
        simp only [Bool.false_eq_true, if_false] at hbr hbp
        cases hbr
      · rw [hmw] at hbr hbp
        simp only [eq_self_iff_true, if_true] at hbr hbp
        have hagree : ∀ h ∈ csv.header,
            renameMap renameTableRead
              (renameMap [("time", "timestamp"), ("value", "MW")] h) =
            renameMap renameTableProc (renameMap [("value", "MW")] h) := by
          intro h hh
          exact comp_agree_mw h (fun he => hTs (he ▸ hh))
        have hf3 : f3 = ⟨csv.header.map (fun h =>
            renameMap renameTableProc (renameMap [("value", "MW")] h)) ++
            ["substation_name"], csv.rows.map (fun r => r ++ [Cell.str label])⟩ := by
          rw [rename_ok hrn, rename_ok hbr]
          show Frame.mk (((csv.header ++ ["substation_name"]).map
              (renameMap [("time", "timestamp"), ("value", "MW")])).map
              (renameMap renameTableRead))
            (csv.rows.map (fun r => r ++ [Cell.str label])) = _
          refine congrArg (fun h => Frame.mk h _) ?_
          rw [List.map_map]
          exact header_build hagree rfl
        have hg3 : g3 = ⟨csv.header.map (fun h =>
            renameMap renameTableProc (renameMap [("value", "MW")] h)),
            csv.rows⟩ := by
          rw [rename_ok hrnp, rename_ok hbp]
          show Frame.mk ((csv.header.map
              (renameMap [("value", "MW")])).map (renameMap renameTableProc))
            csv.rows = _
          refine congrArg (fun h => Frame.mk h _) ?_
          rw [List.map_map]
          rfl
        rw [hf3] at hdt
        rw [hg3] at hcastP
        have hsnP : "substation_name" ∉ csv.header.map (fun h =>
            renameMap renameTableProc (renameMap [("value", "MW")] h)) :=
          map_not_sn (fun h hh =>
            renameMap_ne_sn (by decide)
              (renameMap_ne_sn (by decide) (fun he => hname (he ▸ hh))))
        have hrect2 : ∀ r ∈ csv.rows, r.length = (csv.header.map (fun h =>
            renameMap renameTableProc (renameMap [("value", "MW")] h))).length := by
          intro r hrr
          rw [List.length_map]
          exact hrect' r hrr
        have hdrop := tail_pipeline _ csv.rows label hrect2 hsnP hdt hcast hcastP
        rw [hdrop]
        exact hsort
    · rw [hmva] at hbr hbp
      simp only [eq_self_iff_true, if_true] at hbr hbp
      have hagree : ∀ h ∈ csv.header,
          renameMap renameTableRead
            (renameMap [("time", "timestamp"), ("value", "MVA")] h) =
          renameMap renameTableProc (renameMap [("value", "MVA")] h) := by
        intro h hh
        exact comp_agree_mva h (fun he => hTs (he ▸ hh))
      have hf3 : f3 = ⟨csv.header.map (fun h =>
          renameMap renameTableProc (renameMap [("value", "MVA")] h)) ++
          ["substation_name"], csv.rows.map (fun r => r ++ [Cell.str label])⟩ := by
        rw [rename_ok hrn, rename_ok hbr]
        show Frame.mk (((csv.header ++ ["substation_name"]).map
            (renameMap [("time", "timestamp"), ("value", "MVA")])).map
            (renameMap renameTableRead))
          (csv.rows.map (fun r => r ++ [Cell.str label])) = _
        refine congrArg (fun h => Frame.mk h _) ?_
        rw [List.map_map]
        exact header_build hagree rfl
      have hg3 : g3 = ⟨csv.header.map (fun h =>
          renameMap renameTableProc (renameMap [("value", "MVA")] h)),
          csv.rows⟩ := by
        rw [rename_ok hrnp, rename_ok hbp]
        show Frame.mk ((csv.header.map
            (renameMap [("value", "MVA")])).map (renameMap renameTableProc))
          csv.rows = _
        refine congrArg (fun h => Frame.mk h _) ?_
        rw [List.map_map]
        rfl
      rw [hf3] at hdt
      rw [hg3] at hcastP
      have hsnP : "substation_name" ∉ csv.header.map (fun h =>
          renameMap renameTableProc (renameMap [("value", "MVA")] h)) :=
        map_not_sn (fun h hh =>
          renameMap_ne_sn (by decide)
            (renameMap_ne_sn (by decide) (fun he => hname (he ▸ hh))))
      have hrect2 : ∀ r ∈ csv.rows, r.length = (csv.header.map (fun h =>
          renameMap renameTableProc (renameMap [("value", "MVA")] h))).length := by
        intro r hrr
        rw [List.length_map]
        exact hrect' r hrr
      have hdrop := tail_pipeline _ csv.rows label hrect2 hsnP hdt hcast hcastP
      rw [hdrop]
      exact hsort
/-- C9 (counterexample): the two normalizers do *not* return the same records
in the same row order.  On a wide CSV whose file rows are in descending
timestamp order, `read_primary_substation_csv` keeps the file order while
`process_live_primary_substation_flows` sorts ascending, so dropping
`substation_name` from the former does not give the latter. -/
theorem normalizers_differ_in_row_order :
    read_primary_substation_csv wideExampleCsv "Aberaeron" = .ok wideExampleOut ∧
    process_live_primary_substation_flows wideExampleCsv = .ok wideExampleProcOut ∧
    wideExampleOut.dropCol "substation_name" ≠ wideExampleProcOut :=
  ⟨by rfl, by rfl, by decide⟩

theorem normalizers_agree_after_sort_witness :
    wideExampleCsv.Rect ∧
    "substation_name" ∉ wideExampleCsv.header ∧
    "Timestamp" ∉ wideExampleCsv.header ∧
    ("time" ∈ wideExampleCsv.header →
      "unit" ∈ wideExampleCsv.header ∧ "value" ∈ wideExampleCsv.header) ∧
    (wideExampleOut.dropCol "substation_name").sortTs = .ok wideExampleProcOut :=
  ⟨by unfold Frame.Rect; decide, by decide, by decide, by decide,
    normalizers_agree_after_sort wideExampleCsv "Aberaeron"
      (by unfold Frame.Rect; decide) (by decide) (by decide) (by decide)
      (by rfl) (by rfl)⟩

end NGED
